import Mathlib

/-! The data-access layer of the AXSOL DaaS back office.

A shallow embedding of `DataService` (assets/js/main.js) together with the
fixture object `mockData` (assets/js/mock-data.js), the helper `getEntityData`
of the dashboard (assets/js/dashboard.js), the URL normalisation of
assets/js/fetch-utils.js and main.js, the initialisation functions of
`localStorageUtils` (assets/js/local-storage-utils.js), and the part of the
browser runtime they call: `localStorage.getItem` / `setItem`, `JSON.parse` / `JSON.stringify`,
`Number`, truthiness, strict equality, object spread and the string methods
`includes`, `startsWith` and `substring`.

Modelling decisions
* JavaScript numbers are the doubles that are integers, plus `NaN`: every
  integer up to 2^53 in size, and above that only the integers a double
  represents. An exact result that is not a double is rounded to the nearest
  double (`roundToDouble`), in addition (`JSNum.succ`) and in reading a
  literal, so `2^53 + 1` is `2^53`. A string converts to a number when it is
  a signed decimal integer literal surrounded by optional white space, and to
  `NaN` otherwise. Strings that spell a number in another form (a fraction,
  an exponent, a hexadecimal literal, `Infinity`) denote numbers outside this
  domain and are not covered.
* `mockData` is read by own property name; properties inherited from
  `Object.prototype` are not modelled.
* A field value is a primitive or an array of strings (the `tarifas` field);
  an array element is a primitive or a record.
* A text held by `localStorage` is described by what `JSON.parse` makes of it:
  the empty text, a text `JSON.parse` throws on, or a text it accepts.
* `localStorage.setItem` may throw (quota exceeded, storage disabled); whether
  a given write is accepted is a component of the storage state.
* The array `getAll` returns on the fixture path is the fixture array itself,
  so in-place updates of that array by `save` are updates of `mockData`.
* The case mapping `toLowerCase` of the runtime is a parameter of `filter`;
  `latinToLowerCase` is its instance on Latin text, used on the fixture.
* A string is its sequence of characters (text of the Basic Multilingual
  Plane, where characters and UTF-16 code units coincide).
* The array of a criterion and the array in a field are different objects, so
  they are never strictly equal.
-/

namespace Backoffice

/-! ## Values -/

/-- A field value: a JavaScript primitive, or an array of strings. -/
inductive Val
  | undefined
  | null
  | bool (b : Bool)
  | num (n : Int)
  | nan
  | str (s : String)
  | strs (xs : List String)
  deriving DecidableEq

/-- A record: the own enumerable properties of an object, in insertion order. -/
abbrev Record := List (String × Val)

/-- An element of an array: a primitive value or a record. -/
inductive Item
  | prim (v : Val)
  | obj (r : Record)
  deriving DecidableEq

/-- A value as `JSON.parse` returns it or as a slot of `mockData` holds it. -/
inductive JSVal
  | prim (v : Val)
  | obj (r : Record)
  | arr (xs : List Item)
  deriving DecidableEq

/-- The result of `Number(...)`: an integer or `NaN`. -/
inductive JSNum
  | nan
  | fin (n : Int)
  deriving DecidableEq

/-- The exception a JavaScript operation can raise in this model. -/
inductive JSError
  | typeError
  | syntaxError
  | storageError
  deriving DecidableEq

deriving instance DecidableEq for Except

/-! ## Coercions of the runtime -/

/-- The white-space characters `Number` strips from both ends of a string. -/
def isStrWhiteSpace (c : Char) : Bool :=
  let n := c.toNat
  n = 9 || n = 10 || n = 11 || n = 12 || n = 13 || n = 32 || n = 160 || n = 5760 ||
  (8192 ≤ n && n ≤ 8202) || n = 8232 || n = 8233 || n = 8239 || n = 8287 || n = 12288 ||
  n = 65279

/-- The value of a non-empty run of decimal digits, read left to right. -/
def digitsValue : List Char → Nat → Option Nat
  | [], acc => some acc
  | c :: cs, acc => if c.isDigit then digitsValue cs (10 * acc + (c.toNat - 48)) else none

/-- The number of bits by which `n` exceeds the 53 bits of a double's mantissa: the least
`e` with `n / 2^e < 2^53`, searched for at most `fuel` steps. -/
def excessBits : Nat → Nat → Nat
  | 0, _ => 0
  | fuel + 1, n => if n < 9007199254740992 then 0 else excessBits fuel (n / 2) + 1

/-- The double nearest to the natural number `n`. Below 2^53 every natural number is a
double; from there on, with `e` the excess bits of `n`, the doubles around `n` are the
multiples of `2^e`, and `n` goes to the nearer one, a tie going to the one whose last
mantissa bit is 0. Doubles end near 1.8e308; the overflow to `Infinity` beyond that is
not modelled. -/
def roundToDouble (n : Nat) : Nat :=
  let e := excessBits n n
  let q := n / 2 ^ e
  let r := n % 2 ^ e
  if 2 * r > 2 ^ e ∨ (2 * r = 2 ^ e ∧ q % 2 = 1) then (q + 1) * 2 ^ e else q * 2 ^ e

/-- The double nearest to the integer `n`; rounding is symmetric about 0. -/
def roundToDoubleInt (n : Int) : Int :=
  if 0 ≤ n then (roundToDouble n.toNat : Int) else -(roundToDouble (-n).toNat : Int)

/-- An unsigned decimal integer literal: the double nearest to what the digits spell. -/
def decimalLiteral (cs : List Char) : JSNum :=
  match cs with
  | [] => .nan
  | _ :: _ =>
    match digitsValue cs 0 with
    | some n => .fin (roundToDouble n)
    | none => .nan

/-- The string-to-number conversion: white space is trimmed, the empty string is 0,
a signed decimal integer literal is its value, anything else is `NaN`. -/
def stringToNumber (s : String) : JSNum :=
  let body := ((s.toList.dropWhile isStrWhiteSpace).reverse.dropWhile isStrWhiteSpace).reverse
  match body with
  | [] => .fin 0
  | c :: cs =>
    if c = '-' then
      match decimalLiteral cs with
      | .fin n => .fin (-n)
      | .nan => .nan
    else if c = '+' then decimalLiteral cs
    else decimalLiteral (c :: cs)

/-- The coercion `Number(v)`. -/
def Number : Val → JSNum
  | .undefined => .nan
  | .null => .fin 0
  | .bool b => .fin (if b then 1 else 0)
  | .num n => .fin n
  | .nan => .nan
  | .str s => stringToNumber s
  | .strs [] => .fin 0
  | .strs [s] => stringToNumber s
  | .strs (_ :: _ :: _) => .nan

/-- Strict equality `===` of two numbers: `NaN` equals nothing, itself included. -/
def numStrictEq : JSNum → JSNum → Bool
  | .fin a, .fin b => a = b
  | _, _ => false

/-- Truthiness of a field value, as tested by `if (v)`. -/
def Val.truthy : Val → Bool
  | .undefined => false
  | .null => false
  | .bool b => b
  | .num n => n ≠ 0
  | .nan => false
  | .str s => s ≠ ""
  | .strs _ => true

/-- Truthiness of a value: objects and arrays are always truthy. -/
def JSVal.truthy : JSVal → Bool
  | .prim v => v.truthy
  | .obj _ => true
  | .arr _ => true

/-! ## Records -/

/-- The property `key` of a record, when it has one. A record is written like an object
literal: of two definitions of one name the later one counts. -/
def findProp : Record → String → Option Val
  | [], _ => none
  | (k, v) :: rest, key =>
    match findProp rest key with
    | some w => some w
    | none => if k = key then some v else none

/-- The test `key in r`. -/
def hasProp (r : Record) (key : String) : Bool := (findProp r key).isSome

/-- Property read `r[key]`: `undefined` when the record has no such property. -/
def getProp (r : Record) (key : String) : Val := (findProp r key).getD .undefined

/-- Property write `r[key] = v`: an existing property keeps its position, a new one goes
to the end. -/
def setProp (r : Record) (key : String) (v : Val) : Record :=
  if hasProp r key then r.map (fun kv => if kv.1 = key then (kv.1, v) else kv)
  else r ++ [(key, v)]

/-- Copy of every property of `source` onto `target`, in the order of `source`. -/
def assign (target source : Record) : Record :=
  source.foldl (fun t kv => setProp t kv.1 kv.2) target

/-- Object spread of a record into a fresh object. -/
def spread (r : Record) : Record := assign [] r

/-- Object spread of an array element: a record spreads its properties, a string its
characters under their indices, any other primitive nothing. -/
def spreadItem : Item → Record
  | .obj r => spread r
  | .prim (.str s) => s.toList.enum.map (fun ic => (toString ic.1, Val.str (String.singleton ic.2)))
  | .prim (.strs xs) => xs.enum.map (fun ix => (toString ix.1, Val.str ix.2))
  | .prim _ => []

/-! ## JSON texts -/

/-- A text stored under a key, described by what `JSON.parse` makes of it. -/
inductive StoredText
  | empty
  | malformed
  | json (v : JSVal)
  deriving DecidableEq

/-- How `JSON.stringify` writes a property value: `undefined` is left out, `NaN` is `null`. -/
def jsonProp : Val → Option Val
  | .undefined => none
  | .nan => some .null
  | v => some v

/-- A record after serialization and parsing: its properties, each under its name once,
without the `undefined` ones and with `null` for `NaN`. -/
def jsonRecord (r : Record) : Record :=
  (spread r).filterMap (fun kv => (jsonProp kv.2).map (fun v => (kv.1, v)))

/-- An array element after serialization and parsing: `undefined` and `NaN` become `null`. -/
def jsonItem : Item → Item
  | .prim .undefined => .prim .null
  | .prim .nan => .prim .null
  | .prim v => .prim v
  | .obj r => .obj (jsonRecord r)

/-- The text `JSON.stringify(v)` as `setItem` stores it. `JSON.stringify(undefined)` is
`undefined`, stored as the text "undefined", which `JSON.parse` rejects. -/
def JSON.stringify : JSVal → StoredText
  | .prim .undefined => .malformed
  | .prim .nan => .json (.prim .null)
  | .prim v => .json (.prim v)
  | .obj r => .json (.obj (jsonRecord r))
  | .arr xs => .json (.arr (xs.map jsonItem))

/-- The call `JSON.parse(text)`: throws a SyntaxError on the empty and on a malformed text. -/
def JSON.parse : StoredText → Except JSError JSVal
  | .json v => .ok v
  | .empty => .error .syntaxError
  | .malformed => .error .syntaxError

/-! ## Browser storage and the environment of the service -/

/-- The state of `localStorage`: the text under each key, and which writes it accepts. -/
structure LocalStorage where
  items : String → Option StoredText
  accepts : String → StoredText → Bool

/-- The call `localStorage.getItem(key)`: `none` is JavaScript `null`. -/
def LocalStorage.getItem (ls : LocalStorage) (key : String) : Option StoredText :=
  ls.items key

/-- The call `localStorage.setItem(key, text)`: throws when the write is not accepted. -/
def LocalStorage.setItem (ls : LocalStorage) (key : String) (text : StoredText) :
    Except JSError LocalStorage :=
  if ls.accepts key text then
    .ok { ls with items := fun k => if k = key then some text else ls.items k }
  else .error .storageError

/-- The call `localStorage.removeItem(key)`. -/
def LocalStorage.removeItem (ls : LocalStorage) (key : String) : LocalStorage :=
  { ls with items := fun k => if k = key then none else ls.items k }

/-- The storage left by `try { localStorage.setItem(key, text) } catch (e) { log }`. -/
def LocalStorage.trySetItem (ls : LocalStorage) (key : String) (text : StoredText) :
    LocalStorage :=
  match ls.setItem key text with
  | .ok ls1 => ls1
  | .error _ => ls

/-- The mutable state the service works on: browser storage and the global `mockData`
(`none` when the script defining it is not loaded, so `typeof mockData` is 'undefined').
A slot holding `undefined` is a property `mockData` does not have. -/
structure Env where
  localStorage : LocalStorage
  mockData : Option (String → JSVal)

/-- Truthiness of what `getItem` returned: `null` and the empty text are falsy. -/
def textTruthy : Option StoredText → Bool
  | none => false
  | some .empty => false
  | some _ => true

/-! ## DataService -/

/-- What `getAll` hands back: the value, whether that value is the fixture array itself
(the same object as `mockData[entity]`), and the environment after the call. -/
structure Fetched where
  value : JSVal
  isFixture : Bool
  env : Env

/-- The first stage of `getAll` (main.js 235-242): the parsed persisted entry, when the
entry is truthy and `JSON.parse` does not throw. -/
def readLocal (localItems : Option StoredText) : Option JSVal :=
  match localItems with
  | none => none
  | some text =>
    if textTruthy (some text) then
      match JSON.parse text with
      | .ok v => some v
      | .error _ => none
    else none

/-- The function `DataService.getAll` (main.js 233-261). The asynchronous
`fetchEntityData` started on the last path completes after the call returns and is not
part of its result. -/
def DataService.getAll (env : Env) (entity : String) : Fetched :=
  match readLocal (env.localStorage.getItem entity) with
  | some v => { value := v, isFixture := false, env := env }
  | none =>
    match env.mockData with
    | some mockData =>
      if (mockData entity).truthy then
        { value := mockData entity
          isFixture := true
          env := { env with
            localStorage :=
              env.localStorage.trySetItem entity (JSON.stringify (mockData entity)) } }
      else { value := .arr [], isFixture := false, env := env }
    | none => { value := .arr [], isFixture := false, env := env }

/-! ## The fixture object (assets/js/mock-data.js) -/

/-- The array `mockData.clientes`. -/
def mockClientes : List Item :=
  [ .obj [("id", .num 1), ("nombre", .str "Energías Renovables S.A."),
      ("contacto", .str "María Fernández"), ("email", .str "mfernandez@energren.com"),
      ("estado", .str "Activo")],
    .obj [("id", .num 2), ("nombre", .str "Industrias Solares del Norte"),
      ("contacto", .str "Juan Pérez"), ("email", .str "jperez@indsol.com"),
      ("estado", .str "Activo")],
    .obj [("id", .num 3), ("nombre", .str "Distribuidora Energética Central"),
      ("contacto", .str "Carlos Mendoza"), ("email", .str "cmendoza@distec.com"),
      ("estado", .str "Inactivo")],
    .obj [("id", .num 4), ("nombre", .str "Corporación Solar Pacífico"),
      ("contacto", .str "Ana Torres"), ("email", .str "atorres@solpac.com"),
      ("estado", .str "Activo")],
    .obj [("id", .num 5), ("nombre", .str "Fundación Energía Limpia"),
      ("contacto", .str "Roberto Gómez"), ("email", .str "rgomez@funlimpia.org"),
      ("estado", .str "Activo")],
    .obj [("id", .num 6), ("nombre", .str "AgroSolar Servicios"),
      ("contacto", .str "Laura Martínez"), ("email", .str "lmartinez@agrosolar.com"),
      ("estado", .str "Inactivo")] ]

/-- The array `mockData.proyectos`. -/
def mockProyectos : List Item :=
  [ .obj [("id", .num 1), ("nombre", .str "Instalación Central Fotovoltaica"),
      ("clienteId", .num 1), ("ubicacion", .str "Sevilla, España"),
      ("fechaInicio", .str "2023-08-15"), ("estado", .str "En Progreso")],
    .obj [("id", .num 2), ("nombre", .str "Mantenimiento Torres Eólicas"),
      ("clienteId", .num 1), ("ubicacion", .str "Cádiz, España"),
      ("fechaInicio", .str "2023-06-10"), ("estado", .str "Completado")],
    .obj [("id", .num 3), ("nombre", .str "Instalación Paneles Comerciales"),
      ("clienteId", .num 2), ("ubicacion", .str "Barcelona, España"),
      ("fechaInicio", .str "2023-09-22"), ("estado", .str "En Progreso")],
    .obj [("id", .num 4), ("nombre", .str "Auditoría Energética Industrial"),
      ("clienteId", .num 3), ("ubicacion", .str "Madrid, España"),
      ("fechaInicio", .str "2023-07-05"), ("estado", .str "Completado")] ]

/-- The array `mockData.contratos`. -/
def mockContratos : List Item :=
  [ .obj [("id", .num 1), ("proyectoId", .num 1), ("clienteId", .num 1),
      ("fechaInicio", .str "2025-01-01"), ("fechaFin", .str "2025-12-31"),
      ("tipoServicio", .str "Inspección Drones"), ("frecuencia", .str "Mensual"),
      ("tarifas", .strs ["Tarifa Estándar", "Tarifa Premium"])],
    .obj [("id", .num 2), ("proyectoId", .num 2), ("clienteId", .num 1),
      ("fechaInicio", .str "2025-02-15"), ("fechaFin", .str "2025-08-15"),
      ("tipoServicio", .str "Análisis de Datos"), ("frecuencia", .str "Semanal"),
      ("tarifas", .strs ["Tarifa Básica"])],
    .obj [("id", .num 3), ("proyectoId", .num 3), ("clienteId", .num 2),
      ("fechaInicio", .str "2025-03-01"), ("fechaFin", .str "2026-03-01"),
      ("tipoServicio", .str "Mantenimiento"), ("frecuencia", .str "Trimestral"),
      ("tarifas", .strs ["Tarifa Empresarial", "Tarifa Personalizada"])] ]

/-- The names whose slot in `mockData` is `null` (mock-data.js 126-132). -/
def mockNullSlots : List String :=
  ["pedidos", "estimaciones", "ordenes", "activos", "inspecciones", "entregables",
   "validaciones"]

/-- The object `mockData` of mock-data.js, read by own property name. -/
def mockData (entity : String) : JSVal :=
  if entity = "clientes" then .arr mockClientes
  else if entity = "proyectos" then .arr mockProyectos
  else if entity = "contratos" then .arr mockContratos
  else if entity ∈ mockNullSlots then .prim .null
  else .prim .undefined

/-! ## Array callbacks -/

/-- Truthiness of an array element. -/
def Item.truthy : Item → Bool
  | .prim v => v.truthy
  | .obj _ => true

/-- The read `item.id`: a TypeError on `null` and `undefined`, `undefined` on any other
primitive, the property on a record. -/
def idOf : Item → Except JSError Val
  | .prim .undefined => .error .typeError
  | .prim .null => .error .typeError
  | .prim _ => .ok .undefined
  | .obj r => .ok (getProp r "id")

/-- The callback `item => Number(item.id) === Number(id)`. -/
def idMatches (id : Val) (item : Item) : Except JSError Bool :=
  match idOf item with
  | .ok v => .ok (numStrictEq (Number v) (Number id))
  | .error e => .error e

/-- The test `Number(r.id) === Number(id)` on a record. -/
def recordIdMatches (id : Val) (r : Record) : Bool :=
  numStrictEq (Number (getProp r "id")) (Number id)

/-- The callback `item => Number(item.id) !== Number(id)`. -/
def idDiffers (id : Val) (item : Item) : Except JSError Bool :=
  match idMatches id item with
  | .ok b => .ok (!b)
  | .error e => .error e

/-- The method `Array.prototype.find`: `none` is `undefined`. -/
def findItem (p : Item → Except JSError Bool) : List Item → Except JSError (Option Item)
  | [] => .ok none
  | x :: xs =>
    match p x with
    | .error e => .error e
    | .ok true => .ok (some x)
    | .ok false => findItem p xs

/-- The method `Array.prototype.findIndex`: `none` is -1. -/
def findIndexItem (p : Item → Except JSError Bool) : List Item → Except JSError (Option Nat)
  | [] => .ok none
  | x :: xs =>
    match p x with
    | .error e => .error e
    | .ok true => .ok (some 0)
    | .ok false =>
      match findIndexItem p xs with
      | .error e => .error e
      | .ok (some i) => .ok (some (i + 1))
      | .ok none => .ok none

/-- The method `Array.prototype.filter`. -/
def filterItems (p : Item → Except JSError Bool) : List Item → Except JSError (List Item)
  | [] => .ok []
  | x :: xs =>
    match p x with
    | .error e => .error e
    | .ok keep =>
      match filterItems p xs with
      | .error e => .error e
      | .ok rest => .ok (if keep then x :: rest else rest)

/-- The call `items.map(item => Number(item.id))`. -/
def mapIds : List Item → Except JSError (List JSNum)
  | [] => .ok []
  | x :: xs =>
    match idOf x with
    | .error e => .error e
    | .ok v =>
      match mapIds xs with
      | .error e => .error e
      | .ok ns => .ok (Number v :: ns)

/-- The larger of two numbers as `Math.max` takes it: `NaN` when either is `NaN`. -/
def jsMax : JSNum → JSNum → JSNum
  | .fin a, .fin b => .fin (max a b)
  | _, _ => .nan

/-- The largest integer `n` for which `n` and `n + 1` are both doubles:
`Number.MAX_SAFE_INTEGER`, which is 2^53 - 1. -/
def Number.MAX_SAFE_INTEGER : Int := 9007199254740991

/-- The sum `x + 1` in double arithmetic: the double nearest to the exact sum. The sum is
exact from -2^53 - 1 up to 2^53 - 1; `2^53 + 1` is `2^53`. -/
def JSNum.succ : JSNum → JSNum
  | .fin n => .fin (roundToDoubleInt (n + 1))
  | .nan => .nan

/-- A number as a field value. -/
def JSNum.toVal : JSNum → Val
  | .fin n => .num n
  | .nan => .nan

/-- The elements of a value that is an array; `none` for every other value. -/
def JSVal.asArray : JSVal → Option (List Item)
  | .arr xs => some xs
  | .prim (.strs xs) => some (xs.map (fun s => Item.prim (.str s)))
  | _ => none

/-! ## DataService, continued -/

/-- The function `DataService.getById` (main.js 349-352): `items.find(...) || null`.
On a value that is not an array `items.find` is not callable. -/
def DataService.getById (env : Env) (entity : String) (id : Val) :
    Except JSError Item × Env :=
  let f := DataService.getAll env entity
  match f.value.asArray with
  | none => (.error .typeError, f.env)
  | some items =>
    match findItem (idMatches id) items with
    | .error e => (.error e, f.env)
    | .ok (some item) => (.ok (if item.truthy then item else .prim .null), f.env)
    | .ok none => (.ok (.prim .null), f.env)

/-- The function `DataService.getNextId` (main.js 416-421). `Math.max` is applied to at
least one number here, the empty array being answered before. -/
def DataService.getNextId (items : JSVal) : Except JSError Val :=
  match items with
  | .prim .undefined => .error .typeError
  | .prim .null => .error .typeError
  | .prim (.str s) => if s.length = 0 then .ok (.num 1) else .error .typeError
  | .obj r => if getProp r "length" = .num 0 then .ok (.num 1) else .error .typeError
  | other =>
    match other.asArray with
    | none => .error .typeError
    | some [] => .ok (.num 1)
    | some (x :: xs) =>
      match mapIds (x :: xs) with
      | .error e => .error e
      | .ok [] => .error .typeError
      | .ok (n :: ns) => .ok (ns.foldl jsMax n).succ.toVal

/-- The array `save` ends with and the record it returns (main.js 361-378), or the
TypeError raised on the way. -/
def saveItems (items : JSVal) (item : Record) : Except JSError (List Item × Record) :=
  let newItem := spread item
  if (getProp newItem "id").truthy then
    match items.asArray with
    | none => .error .typeError
    | some xs =>
      match findIndexItem (idMatches (getProp newItem "id")) xs with
      | .error e => .error e
      | .ok (some index) =>
        .ok (xs.set index (.obj (assign (spreadItem (xs.getD index (.prim .undefined))) newItem)),
          newItem)
      | .ok none => .ok (xs ++ [.obj newItem], newItem)
  else
    match DataService.getNextId items with
    | .error e => .error e
    | .ok newId =>
      match items.asArray with
      | none => .error .typeError
      | some xs => .ok (xs ++ [.obj (setProp newItem "id" newId)], setProp newItem "id" newId)

/-- The function `DataService.save` (main.js 360-387). The array is updated in place, so
when it is the fixture array the update is an update of `mockData[entity]`; the write to
storage is attempted afterwards and its failure is swallowed. -/
def DataService.save (env : Env) (entity : String) (item : Record) :
    Except JSError Record × Env :=
  let f := DataService.getAll env entity
  match saveItems f.value item with
  | .error e => (.error e, f.env)
  | .ok (items, newItem) =>
    let mock :=
      if f.isFixture then
        f.env.mockData.map (fun md k => if k = entity then JSVal.arr items else md k)
      else f.env.mockData
    (.ok newItem,
      { localStorage := f.env.localStorage.trySetItem entity (JSON.stringify (.arr items))
        mockData := mock })

/-- The function `DataService.delete` (main.js 395-409). -/
def DataService.delete (env : Env) (entity : String) (id : Val) : Except JSError Bool × Env :=
  let f := DataService.getAll env entity
  match f.value.asArray with
  | none => (.error .typeError, f.env)
  | some items =>
    match filterItems (idDiffers id) items with
    | .error e => (.error e, f.env)
    | .ok filteredItems =>
      if items.length ≠ filteredItems.length then
        match f.env.localStorage.setItem entity (JSON.stringify (.arr filteredItems)) with
        | .ok ls => (.ok true, { f.env with localStorage := ls })
        | .error _ => (.ok false, f.env)
      else (.ok false, f.env)

/-! ## Sample states -/

/-- A storage holding nothing, which accepts every write when `accepting` holds and rejects
every write otherwise. -/
def emptyStorage (accepting : Bool) : LocalStorage :=
  { items := fun _ => none, accepts := fun _ _ => accepting }

/-- A storage holding the serialization of `v` under `key` and nothing else. -/
def storageWith (key : String) (v : JSVal) (accepting : Bool) : LocalStorage :=
  { items := fun k => if k = key then some (.json v) else none, accepts := fun _ _ => accepting }

/-- A collection with the ids 1, 2 and 4. -/
def idsOneTwoFour : List Record :=
  [[("id", .num 1), ("nombre", .str "A")], [("id", .num 2), ("nombre", .str "B")],
   [("id", .num 4), ("nombre", .str "D")]]

/-- A collection with the ids 1, 2 and 3. -/
def idsOneTwoThree : List Record :=
  [[("id", .num 1), ("nombre", .str "A")], [("id", .num 2), ("nombre", .str "B")],
   [("id", .num 3), ("nombre", .str "C")]]

/-- A collection of one client, with id 2. -/
def oneClient : List Record :=
  [[("id", .num 2), ("nombre", .str "Industrias Solares del Norte"), ("estado", .str "Activo")]]

/-- The environment whose storage holds `rs` under "clientes", next to the fixture. -/
def envWith (rs : List Record) (accepting : Bool) : Env :=
  { localStorage := storageWith "clientes" (.arr (rs.map Item.obj)) accepting
    mockData := some mockData }

/-- The environment of a first visit: nothing stored, the fixture loaded. -/
def envFresh (accepting : Bool) : Env :=
  { localStorage := emptyStorage accepting, mockData := some mockData }

/-- The environment whose "clientes" entry is a text that does not parse. -/
def envMalformed : Env :=
  { localStorage :=
      { items := fun k => if k = "clientes" then some .malformed else none
        accepts := fun _ _ => true }
    mockData := some mockData }

/-- A collection of one record, whose id is 0. -/
def zeroIdClient : List Record := [[("id", .num 0), ("nombre", .str "A")]]

/-- A collection whose second record has no id. -/
def mixedIds : List Record := [[("id", .num 1), ("nombre", .str "A")], [("nombre", .str "B")]]

/-! ## Filtering (main.js 429-446) -/

/-- Strict equality `===` of two field values. An array is an object, and the array of a
criterion is never the same object as the array of a stored record. -/
def strictEq : Val → Val → Bool
  | .undefined, .undefined => true
  | .null, .null => true
  | .bool a, .bool b => a = b
  | .num a, .num b => a = b
  | .str a, .str b => a = b
  | _, _ => false

/-- Whether the characters `pre` open the characters `cs`. -/
def startsWithChars : List Char → List Char → Bool
  | [], _ => true
  | _ :: _, [] => false
  | p :: ps, c :: cs => p = c && startsWithChars ps cs

/-- Whether the characters `needle` occur in `cs` as one contiguous run. -/
def includesChars (needle : List Char) : List Char → Bool
  | [] => needle.isEmpty
  | c :: cs => startsWithChars needle (c :: cs) || includesChars needle cs

/-- The method `s.includes(sub)`. -/
def includes (s sub : String) : Bool := includesChars sub.toList s.toList

/-- The method `toLowerCase` on text of the Basic Latin and Latin-1 Supplement blocks:
the instance of the runtime's case mapping used on the data of the fixture. -/
def latinToLowerCase (s : String) : String :=
  String.mk (s.toList.map (fun c =>
    if (65 ≤ c.toNat && c.toNat ≤ 90) || (192 ≤ c.toNat && c.toNat ≤ 222 && c.toNat != 215)
    then Char.ofNat (c.toNat + 32) else c))

/-- The properties of a string or array element: `length` and the elements under their
indices. -/
def indexedProp (xs : List Val) (key : String) : Val :=
  if key = "length" then .num xs.length
  else
    match (List.range xs.length).find? (fun i => toString i = key) with
    | some i => xs.getD i .undefined
    | none => .undefined

/-- The read `item[key]`: a TypeError on `null` and `undefined`. -/
def itemProp : Item → String → Except JSError Val
  | .prim .undefined, _ => .error .typeError
  | .prim .null, _ => .error .typeError
  | .obj r, key => .ok (getProp r key)
  | .prim (.str s), key =>
    .ok (indexedProp (s.toList.map (fun c => Val.str (String.singleton c))) key)
  | .prim (.strs xs), key => .ok (indexedProp (xs.map Val.str) key)
  | .prim _, _ => .ok .undefined

/-- The test that makes the callback of `filter` return false for one criterion (main.js
435-441): two strings are compared by containment after `toLowerCase`, any other pair by
`!==`. The case mapping `toLowerCase` of the runtime is a parameter. -/
def fieldMismatch (toLowerCase : String → String) (v c : Val) : Bool :=
  match v, c with
  | .str a, .str b => !(includes (toLowerCase a) (toLowerCase b))
  | v, c => !(strictEq v c)

/-- The loop `for (const key in criteria)` of the callback of `filter`, over the keys still
to visit. -/
def criteriaHold (toLowerCase : String → String) (criteria : Record) (item : Item) :
    List String → Except JSError Bool
  | [] => .ok true
  | key :: rest =>
    if (getProp criteria key).truthy && !(strictEq (getProp criteria key) (.str "")) then
      match itemProp item key with
      | .error e => .error e
      | .ok v =>
        if fieldMismatch toLowerCase v (getProp criteria key) then .ok false
        else criteriaHold toLowerCase criteria item rest
    else criteriaHold toLowerCase criteria item rest

/-- The function `DataService.filter` (main.js 429-446). -/
def DataService.filter (toLowerCase : String → String) (env : Env) (entity : String)
    (criteria : Record) : Except JSError (List Item) × Env :=
  let f := DataService.getAll env entity
  match f.value.asArray with
  | none => (.error .typeError, f.env)
  | some items =>
    match filterItems
        (fun item => criteriaHold toLowerCase criteria item (criteria.map Prod.fst)) items with
    | .error e => (.error e, f.env)
    | .ok kept => (.ok kept, f.env)

/-- The criteria without the field `key`. -/
def removeProp (criteria : Record) (key : String) : Record :=
  criteria.filter (fun kv => kv.1 ≠ key)

/-- What the claim on `filter` asks of a record: every criterion with a truthy value is
met, two strings by containment after lower-casing and any other pair by strict equality. -/
def satisfiesCriteria (toLowerCase : String → String) (criteria : Record) (r : Record) :
    Bool :=
  criteria.all (fun kv =>
    !(getProp criteria kv.1).truthy ||
      !(fieldMismatch toLowerCase (getProp r kv.1) (getProp criteria kv.1)))

/-! ## The dashboard (assets/js/dashboard.js) -/

/-- The helper `getEntityData` of `renderKPICards` and `renderRecentItems` (dashboard.js
79-94 and 136-151, the same text twice). -/
def dashboard.getEntityData (env : Env) (entity : String) : JSVal :=
  let fromStorage : JSVal :=
    match readLocal (env.localStorage.getItem entity) with
    | some v => v
    | none => .arr []
  match env.mockData with
  | some mockData => if (mockData entity).truthy then mockData entity else fromStorage
  | none => fromStorage

/-! ## URL normalisation (fetch-utils.js 68-74, main.js 67, 543, 632) -/

/-- The method `s.startsWith(start)`. -/
def startsWith (s start : String) : Bool := startsWithChars start.toList s.toList

/-- The method `s.substring(start)`. -/
def substring (s : String) (start : Nat) : String := String.mk (s.toList.drop start)

/-- The function `fetchWrapper.normalizeUrl`. -/
def fetchWrapper.normalizeUrl (url : String) : String :=
  if startsWith url "/" then substring url 1 else url

/-- The value `normalizedUrl` in `domUtils.loadComponent` (main.js 67). -/
def domUtils.normalizedUrl (url : String) : String :=
  if startsWith url "/" then substring url 1 else url

/-- The value `normalizedUrl` in `Utils.redirect` (main.js 543), assigned to the location. -/
def Utils.normalizedUrl (url : String) : String :=
  if startsWith url "/" then substring url 1 else url

/-- The value `normalizedUrl` in the global `loadComponent` (main.js 632). -/
def loadComponent.normalizedUrl (url : String) : String :=
  if startsWith url "/" then substring url 1 else url

/-! ## Collections with distinct ids -/

/-- The number `Number(r.id)` of a record. -/
def idNumber (r : Record) : JSNum := Number (getProp r "id")

/-- No two records of the collection have numerically equal ids. -/
def distinctIds (rs : List Record) : Prop :=
  rs.Pairwise (fun a b => numStrictEq (idNumber a) (idNumber b) = false)

/-- Every record of the collection has a positive integer as its id. -/
def positiveIds (rs : List Record) : Prop :=
  ∀ r ∈ rs, ∃ n : Int, 0 < n ∧ idNumber r = .fin n

/-- Every record of the collection has a safe integer as its id: a number that is at most
`Number.MAX_SAFE_INTEGER` in size. -/
def safeIds (rs : List Record) : Prop :=
  ∀ r ∈ rs, ∃ n : Int,
    -Number.MAX_SAFE_INTEGER ≤ n ∧ n ≤ Number.MAX_SAFE_INTEGER ∧ idNumber r = .fin n

/-- A collection of one record, whose id is 2^53. -/
def idAtLimit : List Record := [[("id", .num 9007199254740992), ("nombre", .str "A")]]

/-- A collection of one record, whose id is 1. -/
def idOne : List Record := [[("id", .num 1), ("nombre", .str "A")]]

/-- The environment after three calls of `save` on the stored collection `idOne`, every
write accepted: of a record whose id is the string "abc", then of two records without id. -/
def envThreeSaves : Env :=
  (DataService.save
    (DataService.save
      (DataService.save (envWith idOne true) "clientes" [("id", .str "abc")]).2
      "clientes" [("nombre", .str "Y")]).2
    "clientes" [("nombre", .str "Z")]).2

/-- The environment of a first visit in which `save("clientes", ...)` of a record with a
`NaN` field found every write rejected, once storage accepts writes again: nothing is
stored, and the fixture array of "clientes" holds the saved record as its seventh. -/
def envUnsavedRecord : Env :=
  { localStorage := emptyStorage true
    mockData := (DataService.save (envFresh false) "clientes"
      [("nombre", .str "X"), ("valor", .nan)]).2.mockData }

/-- An element that is neither `null` nor `undefined`. -/
def Item.defined : Item → Bool
  | .prim .undefined => false
  | .prim .null => false
  | _ => true

/-- The environment whose "clientes" entry is the JSON object with the one property a. -/
def envObject : Env :=
  { localStorage := storageWith "clientes" (.obj [("a", .num 1)]) true
    mockData := some mockData }

/-- The effect a read of `entity` may have on storage: none, or the cache fill, which puts
the serialization of the entity's fixture under the entity's key and touches no other key. -/
def cacheFillOnly (env : Env) (entity : String) (post : Env) : Prop :=
  post.localStorage = env.localStorage ∨
  ∃ md, env.mockData = some md ∧ (md entity).truthy = true ∧
    post.localStorage.getItem entity = some (JSON.stringify (md entity)) ∧
    ∀ k, k ≠ entity → post.localStorage.getItem k = env.localStorage.getItem k

/-- What the claim on `filter` asks of one field: two strings, that the lower-cased
criterion occurs in the lower-cased field as one contiguous run; any other pair, strict
equality. -/
def fieldMeets (toLowerCase : String → String) (v c : Val) : Prop :=
  match v, c with
  | .str a, .str b =>
    ∃ before after, (toLowerCase a).toList = before ++ (toLowerCase b).toList ++ after
  | v, c => strictEq v c = true

/-- The records among the elements of an array. -/
def recordsOf (items : List Item) : List Record :=
  items.filterMap (fun item =>
    match item with
    | .obj r => some r
    | .prim _ => none)

/-- The environment whose "clientes" entry is the JSON array with `null` as its one element. -/
def envNullElement : Env :=
  { localStorage := storageWith "clientes" (.arr [.prim .null]) true
    mockData := some mockData }

/-! ## Storage utilities (assets/js/local-storage-utils.js) -/

/-- The function `localStorageUtils.isAvailable` (lines 11-21): it writes the text 'test'
under the key "test" and removes that key again; `false` when the write throws. The text
'test' is not JSON. -/
def localStorageUtils.isAvailable (ls : LocalStorage) : Bool × LocalStorage :=
  match ls.setItem "test" .malformed with
  | .ok ls1 => (true, ls1.removeItem "test")
  | .error _ => (false, ls)

/-- The function `localStorageUtils.exists` (lines 130-141). -/
def localStorageUtils.exists (ls : LocalStorage) (key : String) : Bool × LocalStorage :=
  let a := localStorageUtils.isAvailable ls
  if !a.1 then (false, a.2)
  else ((a.2.getItem key).isSome, a.2)

/-- The function `localStorageUtils.set` (lines 53-69). -/
def localStorageUtils.set (ls : LocalStorage) (key : String) (value : JSVal) :
    Bool × LocalStorage :=
  let a := localStorageUtils.isAvailable ls
  if !a.1 then (false, a.2)
  else
    match a.2.setItem key (JSON.stringify value) with
    | .ok ls1 => (true, ls1)
    | .error _ => (false, a.2)

/-- The default of the parameter `defaultData = []`: it replaces `undefined`. -/
def defaultDataOr (defaultData : JSVal) : JSVal :=
  if defaultData = .prim .undefined then .arr [] else defaultData

/-- The function `localStorageUtils.initEntity` (lines 172-177). -/
def localStorageUtils.initEntity (ls : LocalStorage) (entity : String) (defaultData : JSVal) :
    Bool × LocalStorage :=
  let e := localStorageUtils.exists ls entity
  if !e.1 then localStorageUtils.set e.2 entity (defaultDataOr defaultData)
  else (true, e.2)

/-- The loop of `initEntities` over `Object.entries(entitiesData)` (lines 191-194), from
the value `allSuccess` has so far. -/
def localStorageUtils.initLoop (ls : LocalStorage) :
    List (String × JSVal) → Bool → Bool × LocalStorage
  | [], allSuccess => (allSuccess, ls)
  | (entity, defaultData) :: rest, allSuccess =>
    let r := localStorageUtils.initEntity ls entity defaultData
    localStorageUtils.initLoop r.2 rest (allSuccess && r.1)

/-- The function `localStorageUtils.initEntities` (lines 184-197). -/
def localStorageUtils.initEntities (ls : LocalStorage) (entitiesData : List (String × JSVal)) :
    Bool × LocalStorage :=
  let a := localStorageUtils.isAvailable ls
  if !a.1 then (false, a.2)
  else localStorageUtils.initLoop a.2 entitiesData true

/-- The results of the calls of `initEntity` that `initEntities` makes, in order, each on
the storage the call before it left. -/
def initEntityResults (ls : LocalStorage) : List (String × JSVal) → List Bool
  | [] => []
  | (entity, defaultData) :: rest =>
    (localStorageUtils.initEntity ls entity defaultData).1 ::
      initEntityResults (localStorageUtils.initEntity ls entity defaultData).2 rest

/-- A storage that accepts the probe of `isAvailable` and rejects every other write. -/
def probeOnlyStorage : LocalStorage :=
  { items := fun _ => none, accepts := fun k _ => k = "test" }

/-- A storage with an entry under "clientes" and one under "test". -/
def storageWithTest : LocalStorage :=
  { items := fun k =>
      if k = "clientes" then some (.json (.arr [])) else
      if k = "test" then some (.json (.prim (.num 7))) else none
    accepts := fun _ _ => true }

/-! ## Deleting one id after another -/

/-- The environment left by `delete(entity, id)` for each id of the list in turn. -/
def deleteEach (env : Env) (entity : String) : List Val → Env
  | [] => env
  | id :: ids => deleteEach (DataService.delete env entity id).2 entity ids

/-! ## Records: reading after writing -/

theorem findProp_cons (k : String) (v : Val) (rest : Record) (key : String) :
    findProp ((k, v) :: rest) key
      = match findProp rest key with
        | some w => some w
        | none => if k = key then some v else none := rfl

theorem findProp_append_single (r : Record) (k key : String) (v : Val) :
    findProp (r ++ [(k, v)]) key = if k = key then some v else findProp r key := by
  induction r with
  | nil => simp [findProp]
  | cons kv rest ih =>
    obtain ⟨k1, v1⟩ := kv
    rw [List.cons_append, findProp_cons, findProp_cons, ih]
    by_cases h : k = key
    · simp [h]
    · simp [h]

theorem findProp_map_set (r : Record) (k key : String) (v : Val) :
    findProp (r.map (fun kv => if kv.1 = k then (kv.1, v) else kv)) key
      = if k = key then (findProp r key).map (fun _ => v) else findProp r key := by
  induction r with
  | nil => simp [findProp]
  | cons kv rest ih =>
    obtain ⟨k1, v1⟩ := kv
    rw [List.map_cons]
    by_cases h1 : k1 = k
    · rw [if_pos h1, findProp_cons, findProp_cons, ih]
      subst h1
      by_cases h : k1 = key
      · simp only [h, if_true]
        cases findProp rest key <;> rfl
      · simp only [h, if_false]
    · rw [if_neg h1, findProp_cons, findProp_cons, ih]
      by_cases h : k = key
      · subst h
        have h2 : ¬ k1 = k := h1
        simp only [if_true, h2, if_false]
        cases findProp rest k <;> rfl
      · simp only [h, if_false]

theorem findProp_setProp (r : Record) (k key : String) (v : Val) :
    findProp (setProp r k v) key = if k = key then some v else findProp r key := by
  unfold setProp
  by_cases hp : hasProp r k = true
  · rw [if_pos hp, findProp_map_set]
    by_cases h : k = key
    · subst h
      simp only [if_true]
      unfold hasProp at hp
      cases hf : findProp r k with
      | none => simp [hf] at hp
      | some w => rfl
    · simp [h]
  · rw [if_neg hp, findProp_append_single]

theorem findProp_assign (b a : Record) (key : String) :
    findProp (assign a b) key
      = match findProp b key with
        | some v => some v
        | none => findProp a key := by
  induction b generalizing a with
  | nil => simp [assign, findProp]
  | cons kv rest ih =>
    obtain ⟨k1, v1⟩ := kv
    have hstep : assign a ((k1, v1) :: rest) = assign (setProp a k1 v1) rest := rfl
    rw [hstep, ih, findProp_setProp, findProp_cons]
    cases findProp rest key with
    | some w => rfl
    | none =>
      by_cases h : k1 = key <;> simp [h]

theorem findProp_spread (r : Record) (key : String) :
    findProp (spread r) key = findProp r key := by
  unfold spread
  rw [findProp_assign]
  cases findProp r key <;> rfl

theorem getProp_spread (r : Record) (key : String) : getProp (spread r) key = getProp r key := by
  simp [getProp, findProp_spread]

theorem hasProp_spread (r : Record) (key : String) : hasProp (spread r) key = hasProp r key := by
  simp [hasProp, findProp_spread]

theorem getProp_assign (a b : Record) (key : String) :
    getProp (assign a b) key = if hasProp b key then getProp b key else getProp a key := by
  unfold getProp hasProp
  rw [findProp_assign]
  cases findProp b key <;> simp

theorem getProp_setProp (r : Record) (k key : String) (v : Val) :
    getProp (setProp r k v) key = if k = key then v else getProp r key := by
  unfold getProp
  rw [findProp_setProp]
  by_cases h : k = key <;> simp [h]

/-! ## Arrays of records -/

theorem idMatches_obj (id : Val) (r : Record) :
    idMatches id (.obj r) = .ok (recordIdMatches id r) := rfl

theorem getAll_accepts (env : Env) (entity : String) :
    (DataService.getAll env entity).env.localStorage.accepts = env.localStorage.accepts := by
  unfold DataService.getAll
  cases readLocal (env.localStorage.getItem entity) with
  | some v => rfl
  | none =>
    cases env.mockData with
    | none => rfl
    | some md =>
      by_cases hm : (md entity).truthy = true
      · simp only [hm, if_true, LocalStorage.trySetItem, LocalStorage.setItem]
        by_cases ha : env.localStorage.accepts entity (JSON.stringify (md entity)) = true
        · simp [ha]
        · simp [ha]
      · simp [hm]

theorem getItem_trySetItem (ls : LocalStorage) (key : String) (text : StoredText)
    (h : ls.accepts key text = true) : (ls.trySetItem key text).getItem key = some text := by
  simp [LocalStorage.trySetItem, LocalStorage.setItem, h, LocalStorage.getItem]

theorem findIndexItem_none (id : Val) (rs : List Record)
    (h : ∀ q ∈ rs, recordIdMatches id q = false) :
    findIndexItem (idMatches id) (rs.map Item.obj) = .ok none := by
  induction rs with
  | nil => rfl
  | cons r rest ih =>
    have h1 : recordIdMatches id r = false := h r (List.mem_cons_self _ _)
    have h2 := ih (fun q hq => h q (List.mem_cons_of_mem _ hq))
    simp [findIndexItem, idMatches_obj, h1, h2]

theorem findIndexItem_cons_false (p : Item → Except JSError Bool) (x : Item)
    (xs : List Item) (h : p x = .ok false) :
    findIndexItem p (x :: xs)
      = match findIndexItem p xs with
        | .error e => .error e
        | .ok (some i) => .ok (some (i + 1))
        | .ok none => .ok none := by
  simp [findIndexItem, h]

theorem findIndexItem_first (id : Val) (pre post : List Record) (r : Record)
    (hpre : ∀ q ∈ pre, recordIdMatches id q = false) (hr : recordIdMatches id r = true) :
    findIndexItem (idMatches id) ((pre ++ r :: post).map Item.obj) = .ok (some pre.length) := by
  induction pre with
  | nil => simp [findIndexItem, idMatches_obj, hr]
  | cons q rest ih =>
    have h1 : recordIdMatches id q = false := hpre q (List.mem_cons_self _ _)
    have h2 := ih (fun x hx => hpre x (List.mem_cons_of_mem _ hx))
    have hq : idMatches id (Item.obj q) = .ok false := by rw [idMatches_obj, h1]
    rw [List.cons_append, List.map_cons, findIndexItem_cons_false _ _ _ hq, h2]
    rfl

theorem mapIds_records (rs : List Record) :
    mapIds (rs.map Item.obj) = .ok (rs.map (fun r => Number (getProp r "id"))) := by
  induction rs with
  | nil => rfl
  | cons r rest ih => simp [mapIds, idOf, ih]

theorem idDiffers_obj (id : Val) (r : Record) :
    idDiffers id (.obj r) = .ok (!recordIdMatches id r) := rfl

theorem filterItems_records (id : Val) (rs : List Record) :
    filterItems (idDiffers id) (rs.map Item.obj)
      = .ok ((rs.filter (fun r => !recordIdMatches id r)).map Item.obj) := by
  induction rs with
  | nil => rfl
  | cons r rest ih =>
    by_cases h : recordIdMatches id r = true
    · simp [filterItems, idDiffers_obj, ih, h]
    · simp [filterItems, idDiffers_obj, ih, h]

theorem foldl_jsMax_fin (ns : List Int) (n : Int) :
    (ns.map JSNum.fin).foldl jsMax (.fin n) = .fin (ns.foldl max n) := by
  induction ns generalizing n with
  | nil => rfl
  | cons m rest ih => simp [List.foldl, jsMax, ih]

theorem foldl_max_ge (ns : List Int) (n : Int) :
    n ≤ ns.foldl max n ∧ ∀ m ∈ ns, m ≤ ns.foldl max n := by
  induction ns generalizing n with
  | nil => simp
  | cons a rest ih =>
    obtain ⟨h1, h2⟩ := ih (max n a)
    refine ⟨le_trans (le_max_left n a) h1, ?_⟩
    intro m hm
    rcases List.mem_cons.mp hm with h | h
    · rw [h]; exact le_trans (le_max_right n a) h1
    · exact h2 m h

theorem foldl_max_mem (ns : List Int) (n : Int) : ns.foldl max n ∈ n :: ns := by
  induction ns generalizing n with
  | nil => simp
  | cons a rest ih =>
    have h := ih (max n a)
    rcases List.mem_cons.mp h with h1 | h1
    · rcases max_choice n a with h2 | h2
      · simp only [List.foldl]; rw [h1, h2]; simp
      · simp only [List.foldl]; rw [h1, h2]; simp
    · simp only [List.foldl]
      exact List.mem_cons_of_mem _ (List.mem_cons_of_mem _ h1)

/-! ## The paths of `save` -/

theorem set_length_append {α : Type} (l r : List α) (x y : α) :
    (l ++ x :: r).set l.length y = l ++ y :: r := by
  induction l with
  | nil => rfl
  | cons a rest ih => simp [List.set, ih]

theorem getD_length_append {α : Type} (l r : List α) (x d : α) :
    (l ++ x :: r).getD l.length d = x := by
  induction l with
  | nil => rfl
  | cons a rest ih => simpa using ih

theorem saveItems_merge (item : Record) (pre post : List Record) (old : Record)
    (hid : (getProp item "id").truthy = true)
    (hpre : ∀ q ∈ pre, recordIdMatches (getProp item "id") q = false)
    (hold : recordIdMatches (getProp item "id") old = true) :
    saveItems (.arr ((pre ++ old :: post).map Item.obj)) item
      = .ok ((pre ++ assign (spread old) (spread item) :: post).map Item.obj, spread item) := by
  have hidx := findIndexItem_first (getProp item "id") pre post old hpre hold
  unfold saveItems
  simp only [getProp_spread, hid, if_true, JSVal.asArray, hidx]
  have hlen : pre.length = (pre.map Item.obj).length := by simp
  simp only [List.map_append, List.map_cons]
  rw [hlen, set_length_append, getD_length_append]
  rfl

theorem saveItems_append (item : Record) (rs : List Record)
    (hid : (getProp item "id").truthy = true)
    (hnone : ∀ q ∈ rs, recordIdMatches (getProp item "id") q = false) :
    saveItems (.arr (rs.map Item.obj)) item
      = .ok ((rs ++ [spread item]).map Item.obj, spread item) := by
  have hidx := findIndexItem_none (getProp item "id") rs hnone
  unfold saveItems
  simp [getProp_spread, hid, JSVal.asArray, hidx]

theorem roundToDouble_of_small (n : Nat) (h : n ≤ 9007199254740992) : roundToDouble n = n := by
  rcases Nat.lt_or_eq_of_le h with hlt | heq
  · have he : excessBits n n = 0 := by
      cases n with
      | zero => rfl
      | succ k => simp [excessBits, hlt]
    unfold roundToDouble
    simp only [he, pow_zero, Nat.div_one, Nat.mod_one, Nat.mul_one]
    rw [if_neg (by omega)]
  · rw [heq]
    decide

theorem roundToDoubleInt_of_safe (n : Int) (hlo : -9007199254740992 ≤ n)
    (hhi : n ≤ 9007199254740992) : roundToDoubleInt n = n := by
  unfold roundToDoubleInt
  by_cases h0 : 0 ≤ n
  · rw [if_pos h0, roundToDouble_of_small _ (by omega)]
    omega
  · rw [if_neg h0, roundToDouble_of_small _ (by omega)]
    omega

theorem succ_of_safe (n : Int) (hlo : -Number.MAX_SAFE_INTEGER ≤ n)
    (hhi : n ≤ Number.MAX_SAFE_INTEGER) : (JSNum.fin n).succ = .fin (n + 1) := by
  unfold Number.MAX_SAFE_INTEGER at hlo hhi
  show JSNum.fin (roundToDoubleInt (n + 1)) = JSNum.fin (n + 1)
  rw [roundToDoubleInt_of_safe (n + 1) (by omega) (by omega)]

theorem getNextId_records (rs : List Record) (ids : List Int)
    (hids : rs.map (fun r => Number (getProp r "id")) = ids.map JSNum.fin)
    (hsafe : ∀ m ∈ ids, -Number.MAX_SAFE_INTEGER ≤ m ∧ m ≤ Number.MAX_SAFE_INTEGER) :
    ∃ n : Int, DataService.getNextId (.arr (rs.map Item.obj)) = .ok (.num n) ∧
      (ids = [] → n = 1) ∧ (ids ≠ [] → n - 1 ∈ ids ∧ ∀ m ∈ ids, m ≤ n - 1) := by
  cases rs with
  | nil =>
    cases ids with
    | nil => exact ⟨1, rfl, fun _ => rfl, fun h => absurd rfl h⟩
    | cons a as => simp at hids
  | cons r rest =>
    cases ids with
    | nil => simp at hids
    | cons a as =>
      refine ⟨as.foldl max a + 1, ?_, fun h => by simp at h, fun _ => ?_⟩
      · have hm := mapIds_records (r :: rest)
        rw [hids] at hm
        simp only [List.map_cons] at hm
        have hb := hsafe _ (foldl_max_mem as a)
        simp only [List.map_cons, DataService.getNextId, JSVal.asArray, hm, foldl_jsMax_fin,
          succ_of_safe _ hb.1 hb.2]
        rfl
      · have h1 := foldl_max_mem as a
        have h2 := foldl_max_ge as a
        refine ⟨by simpa using h1, ?_⟩
        intro m hm
        rcases List.mem_cons.mp hm with h | h
        · rw [h]; simpa using h2.1
        · simpa using h2.2 m h

theorem saveItems_create (item : Record) (rs : List Record) (n : Int)
    (hnoid : hasProp item "id" = false)
    (hn : DataService.getNextId (.arr (rs.map Item.obj)) = .ok (.num n)) :
    saveItems (.arr (rs.map Item.obj)) item
      = .ok ((rs ++ [setProp (spread item) "id" (.num n)]).map Item.obj,
          setProp (spread item) "id" (.num n)) := by
  have hu : getProp item "id" = .undefined := by
    unfold hasProp at hnoid
    unfold getProp
    cases hf : findProp item "id" with
    | none => rfl
    | some w => simp [hf] at hnoid
  unfold saveItems
  simp [getProp_spread, hu, Val.truthy, hn, JSVal.asArray]

/-! ## Reading: `getAll` -/

theorem getAll_value_of_miss (env : Env) (entity : String)
    (h : readLocal (env.localStorage.getItem entity) = none) :
    (DataService.getAll env entity).value
      = (match env.mockData with
         | some md => if (md entity).truthy then md entity else .arr []
         | none => .arr []) := by
  unfold DataService.getAll
  rw [h]
  cases env.mockData with
  | none => rfl
  | some md => by_cases hm : (md entity).truthy = true <;> simp [hm]

/-- Claim C1. When the text stored under an entity name parses, `getAll` returns exactly the
parsed value, so exactly the persisted record sequence when it is one, whatever `mockData`
holds or whether it is loaded at all. -/
theorem getAll_returns_persisted (ls : LocalStorage) (fixture : Option (String → JSVal))
    (entity : String) (v : JSVal) (h : ls.getItem entity = some (.json v)) :
    (DataService.getAll { localStorage := ls, mockData := fixture } entity).value = v := by
  simp [DataService.getAll, readLocal, h, textTruthy, JSON.parse]

/-- Claim C1 at a storage holding one client under "clientes" while the fixture holds six. -/
theorem getAll_returns_persisted_witness :
    (storageWith "clientes" (.arr (oneClient.map Item.obj)) true).getItem "clientes"
        = some (.json (.arr (oneClient.map Item.obj))) ∧
    (DataService.getAll (envWith oneClient true) "clientes").value
        = .arr (oneClient.map Item.obj) :=
  ⟨rfl, getAll_returns_persisted _ _ _ _ rfl⟩

/-- Claim C2 does not hold as stated: on a first visit (no entry, the fixture loaded) with a
storage that rejects the write, `getAll` returns the fixture of "clientes" and storage
still has no entry under that key. -/
theorem getAll_fixture_write_rejected :
    (envFresh false).localStorage.getItem "clientes" = none ∧
    (mockData "clientes").truthy = true ∧
    (DataService.getAll (envFresh false) "clientes").value = mockData "clientes" ∧
    (DataService.getAll (envFresh false) "clientes").env.localStorage.getItem "clientes"
        = none := by
  decide

/-- Claim C2, amended. With no entry under the entity name and a defined (truthy) fixture,
`getAll` returns exactly the fixture, and when storage accepts the write the entity's key
afterwards holds the serialization of that same value. -/
theorem getAll_fixture_fill (env : Env) (entity : String) (md : String → JSVal)
    (hno : env.localStorage.getItem entity = none) (hmd : env.mockData = some md)
    (hfx : (md entity).truthy = true) :
    (DataService.getAll env entity).value = md entity ∧
    (env.localStorage.accepts entity (JSON.stringify (md entity)) = true →
      (DataService.getAll env entity).env.localStorage.getItem entity
        = some (JSON.stringify (md entity))) := by
  simp [DataService.getAll, readLocal, hno, hmd, hfx, LocalStorage.trySetItem,
    LocalStorage.setItem]
  intro h
  simp [h, LocalStorage.getItem]

/-- Claim C2, amended, on a first visit: the six clients of the fixture are returned and,
the write being accepted, stored under "clientes". -/
theorem getAll_fixture_fill_witness :
    (DataService.getAll (envFresh true) "clientes").value = .arr mockClientes ∧
    (DataService.getAll (envFresh true) "clientes").env.localStorage.getItem "clientes"
        = some (.json (.arr mockClientes)) := by
  have h := getAll_fixture_fill (envFresh true) "clientes" mockData rfl rfl (by decide)
  exact ⟨h.1, (h.2 rfl).trans (by decide)⟩

/-- Claim C3. When the text stored under an entity name does not parse (it is malformed or
empty), `getAll` still returns a value, the one it returns once that entry is removed:
the fixture when it is defined, the empty array otherwise. -/
theorem getAll_malformed_is_miss (env : Env) (entity : String) (t : StoredText)
    (h : env.localStorage.getItem entity = some t)
    (hbad : JSON.parse t = .error .syntaxError) :
    (DataService.getAll env entity).value
      = (DataService.getAll
          { env with localStorage := env.localStorage.removeItem entity } entity).value
    ∧ (DataService.getAll env entity).value
      = (match env.mockData with
         | some md => if (md entity).truthy then md entity else .arr []
         | none => .arr []) := by
  have hr : readLocal (env.localStorage.getItem entity) = none := by
    rw [h]; cases t <;> simp_all [readLocal, textTruthy, JSON.parse]
  have hr2 : readLocal ((env.localStorage.removeItem entity).getItem entity) = none := by
    simp [LocalStorage.removeItem, LocalStorage.getItem, readLocal]
  rw [getAll_value_of_miss env entity hr, getAll_value_of_miss _ entity hr2]
  exact ⟨rfl, rfl⟩

/-- Claim C3 at a storage whose "clientes" entry is malformed: the fixture is returned. -/
theorem getAll_malformed_is_miss_witness :
    envMalformed.localStorage.getItem "clientes" = some .malformed ∧
    (DataService.getAll envMalformed "clientes").value = .arr mockClientes :=
  ⟨rfl, (getAll_malformed_is_miss envMalformed "clientes" .malformed rfl rfl).2.trans
    (by decide)⟩

/-- Claim C4. With no entry under the entity name and no fixture for it (`mockData` not
loaded, or its slot missing or `null`), `getAll` returns the empty array. -/
theorem getAll_empty_without_fixture (env : Env) (entity : String)
    (hno : env.localStorage.getItem entity = none)
    (hfx : env.mockData = none ∨
      ∃ md, env.mockData = some md ∧
        (md entity = .prim .undefined ∨ md entity = .prim .null)) :
    (DataService.getAll env entity).value = .arr [] := by
  have hr : readLocal (env.localStorage.getItem entity) = none := by rw [hno]; rfl
  rw [getAll_value_of_miss env entity hr]
  rcases hfx with h | ⟨md, h, h2 | h2⟩
  · simp [h]
  · simp [h, h2, JSVal.truthy, Val.truthy]
  · simp [h, h2, JSVal.truthy, Val.truthy]

/-- Claim C4 at "pedidos", whose slot in `mockData` is `null`. -/
theorem getAll_empty_without_fixture_witness :
    mockData "pedidos" = .prim .null ∧
    (DataService.getAll (envFresh true) "pedidos").value = .arr [] :=
  ⟨by decide,
    getAll_empty_without_fixture (envFresh true) "pedidos" rfl
      (Or.inr ⟨mockData, rfl, Or.inr (by decide)⟩)⟩

/-! ## Reading: `getById` -/

theorem findItem_records (id : Val) (rs : List Record) :
    (∃ pre r post, rs = pre ++ r :: post ∧ (∀ q ∈ pre, recordIdMatches id q = false) ∧
        recordIdMatches id r = true ∧
        findItem (idMatches id) (rs.map Item.obj) = .ok (some (.obj r)))
    ∨ ((∀ q ∈ rs, recordIdMatches id q = false) ∧
        findItem (idMatches id) (rs.map Item.obj) = .ok none) := by
  induction rs with
  | nil => right; simp [findItem]
  | cons r rest ih =>
    by_cases hm : recordIdMatches id r = true
    · left
      refine ⟨[], r, rest, rfl, by simp, hm, ?_⟩
      simp [findItem, idMatches_obj, hm]
    · have hm2 : recordIdMatches id r = false := by simpa using hm
      rcases ih with ⟨pre, r1, post, he, hpre, hr1, hf⟩ | ⟨hall, hf⟩
      · left
        refine ⟨r :: pre, r1, post, by simp [he], ?_, hr1, ?_⟩
        · intro q hq
          rcases List.mem_cons.mp hq with h | h
          · rw [h]; exact hm2
          · exact hpre q h
        · simp [findItem, idMatches_obj, hm2, hf]
      · right
        refine ⟨?_, ?_⟩
        · intro q hq
          rcases List.mem_cons.mp hq with h | h
          · rw [h]; exact hm2
          · exact hall q h
        · simp [findItem, idMatches_obj, hm2, hf]

theorem number_str_three : Number (.str "3") = Number (.num 3) := by decide

theorem idMatches_congr (a b : Val) (h : Number a = Number b) : idMatches a = idMatches b := by
  funext item
  simp [idMatches, h]

/-- Claim C5. When `getAll(entity)` is a sequence of records `rs`, `getById` returns the
first record of `rs` whose id, converted to a number, strictly equals the requested id
converted to a number (no record before it does), and `null` when no record of `rs` does;
and the requests "3" and 3 give the same result in every environment. -/
theorem getById_first_match (env : Env) (entity : String) (id : Val) (rs : List Record)
    (h : (DataService.getAll env entity).value = .arr (rs.map Item.obj)) :
    ((∃ pre r post, rs = pre ++ r :: post ∧ (∀ q ∈ pre, recordIdMatches id q = false) ∧
        recordIdMatches id r = true ∧
        (DataService.getById env entity id).1 = .ok (.obj r))
     ∨ ((∀ q ∈ rs, recordIdMatches id q = false) ∧
        (DataService.getById env entity id).1 = .ok (.prim .null)))
    ∧ DataService.getById env entity (.str "3") = DataService.getById env entity (.num 3) := by
  refine ⟨?_, ?_⟩
  · rcases findItem_records id rs with ⟨pre, r, post, he, hpre, hr, hf⟩ | ⟨hall, hf⟩
    · left
      refine ⟨pre, r, post, he, hpre, hr, ?_⟩
      simp [DataService.getById, h, JSVal.asArray, hf, Item.truthy]
    · right
      refine ⟨hall, ?_⟩
      simp [DataService.getById, h, JSVal.asArray, hf]
  · simp [DataService.getById, idMatches_congr _ _ number_str_three]

/-- Claim C5 on the stored ids 1, 2, 3: the requests "3" and 3 agree, and both give the
third record. -/
theorem getById_first_match_witness :
    (DataService.getAll (envWith idsOneTwoThree true) "clientes").value
        = .arr (idsOneTwoThree.map Item.obj) ∧
    DataService.getById (envWith idsOneTwoThree true) "clientes" (.str "3")
        = DataService.getById (envWith idsOneTwoThree true) "clientes" (.num 3) ∧
    (DataService.getById (envWith idsOneTwoThree true) "clientes" (.num 3)).1
        = .ok (.obj [("id", .num 3), ("nombre", .str "C")]) :=
  ⟨by decide,
    (getById_first_match (envWith idsOneTwoThree true) "clientes" (.num 3) idsOneTwoThree
      (by decide)).2,
    by decide⟩

/-! ## Writing: `save` -/

theorem save_storage (env : Env) (entity : String) (item : Record) (items : List Item)
    (newItem : Record)
    (hs : saveItems (DataService.getAll env entity).value item = .ok (items, newItem))
    (hw : ∀ t, env.localStorage.accepts entity t = true) :
    (DataService.save env entity item).1 = .ok newItem ∧
    (DataService.save env entity item).2.localStorage.getItem entity
      = some (JSON.stringify (.arr items)) := by
  unfold DataService.save
  simp only [hs, true_and]
  apply getItem_trySetItem
  rw [getAll_accepts]
  exact hw _

/-- Claim C6 does not hold as stated. First, an id that is present but falsy takes the
create path: on the stored collection whose one record has id 0, saving a record with
id 0 (numerically equal, write accepted) leaves the old record as it was and appends a
second record with id 1. Second, when storage rejects the write nothing is persisted:
after saving a record with id 2 over the stored client 2, storage holds the old record. -/
theorem save_merge_counterexample :
    (hasProp [("id", .num 0), ("nombre", .str "B")] "id" = true ∧
      recordIdMatches (.num 0) [("id", .num 0), ("nombre", .str "A")] = true ∧
      (DataService.save (envWith zeroIdClient true) "clientes"
          [("id", .num 0), ("nombre", .str "B")]).2.localStorage.getItem "clientes"
        = some (.json (.arr [.obj [("id", .num 0), ("nombre", .str "A")],
            .obj [("id", .num 1), ("nombre", .str "B")]])))
    ∧ (recordIdMatches (.num 2)
        [("id", .num 2), ("nombre", .str "Industrias Solares del Norte"),
          ("estado", .str "Activo")] = true ∧
      (DataService.save (envWith oneClient false) "clientes"
          [("id", .num 2), ("estado", .str "Inactivo")]).2.localStorage.getItem "clientes"
        = some (.json (.arr (oneClient.map Item.obj)))) := by
  decide

/-- Claim C6, amended. Let the collection `getAll` returns be the records
`pre ++ old :: post`, let the incoming record have a truthy id that numerically equals
the id of `old` and of no record of `pre`, and let storage accept writes under the
entity's key. Then `save` stores the serialization of `pre ++ merged :: post`, a
collection of the same length that differs from the old one at that position only, where
`merged` is the spread of `old` followed by the spread of the incoming record: each
property of the incoming record has the incoming value, every other property the value
it has in `old`. -/
theorem save_merges_existing (env : Env) (entity : String) (item : Record)
    (pre post : List Record) (old : Record)
    (hcol : (DataService.getAll env entity).value = .arr ((pre ++ old :: post).map Item.obj))
    (hid : (getProp item "id").truthy = true)
    (hpre : ∀ q ∈ pre, recordIdMatches (getProp item "id") q = false)
    (hold : recordIdMatches (getProp item "id") old = true)
    (hw : ∀ t, env.localStorage.accepts entity t = true) :
    (DataService.save env entity item).2.localStorage.getItem entity
      = some (JSON.stringify
          (.arr ((pre ++ assign (spread old) (spread item) :: post).map Item.obj)))
    ∧ (pre ++ assign (spread old) (spread item) :: post).length = (pre ++ old :: post).length
    ∧ ∀ key, getProp (assign (spread old) (spread item)) key
        = if hasProp item key then getProp item key else getProp old key := by
  have hs := saveItems_merge item pre post old hid hpre hold
  rw [← hcol] at hs
  refine ⟨(save_storage env entity item _ _ hs hw).2, by simp, ?_⟩
  intro key
  rw [getProp_assign, hasProp_spread, getProp_spread, getProp_spread]

/-- Claim C6, amended, on the stored ids 1, 2, 3: saving id 2 with a new `estado` keeps
the name of record 2, adds the field, and leaves records 1 and 3 alone. -/
theorem save_merges_existing_witness :
    (DataService.save (envWith idsOneTwoThree true) "clientes"
        [("id", .num 2), ("estado", .str "Inactivo")]).2.localStorage.getItem "clientes"
      = some (.json (.arr [.obj [("id", .num 1), ("nombre", .str "A")],
          .obj [("id", .num 2), ("nombre", .str "B"), ("estado", .str "Inactivo")],
          .obj [("id", .num 3), ("nombre", .str "C")]])) :=
  (save_merges_existing (envWith idsOneTwoThree true) "clientes"
      [("id", .num 2), ("estado", .str "Inactivo")]
      [[("id", .num 1), ("nombre", .str "A")]] [[("id", .num 3), ("nombre", .str "C")]]
      [("id", .num 2), ("nombre", .str "B")]
      (by decide) (by decide) (by decide) (by decide) (fun _ => rfl)).1.trans (by decide)

/-- Claim C7 does not hold as stated. First, when storage rejects the write the result is
not persisted: saving a record without id on the stored ids 1, 2, 4 returns id 5 and
leaves the three stored records as they were. Second, when a record of the collection has
no numeric id the assigned id is not a number: on a collection whose ids are 1 and
missing, the record is returned with id `NaN` and stored with id `null`. Third, when the
greatest id is 2^53 the sum with 1 is 2^53 again: on the collection whose one id is
9007199254740992 the record is returned and stored with that same id, not with the
maximum plus one. -/
theorem save_create_counterexample :
    ((DataService.save (envWith idsOneTwoFour false) "clientes" [("nombre", .str "E")]).1
        = .ok [("nombre", .str "E"), ("id", .num 5)] ∧
      (DataService.save (envWith idsOneTwoFour false) "clientes"
          [("nombre", .str "E")]).2.localStorage.getItem "clientes"
        = some (.json (.arr (idsOneTwoFour.map Item.obj))))
    ∧ ((DataService.save (envWith mixedIds true) "clientes" [("nombre", .str "E")]).1
        = .ok [("nombre", .str "E"), ("id", .nan)] ∧
      (DataService.save (envWith mixedIds true) "clientes"
          [("nombre", .str "E")]).2.localStorage.getItem "clientes"
        = some (.json (.arr [.obj [("id", .num 1), ("nombre", .str "A")],
            .obj [("nombre", .str "B")],
            .obj [("nombre", .str "E"), ("id", .null)]])))
    ∧ ((DataService.save (envWith idAtLimit true) "clientes" [("nombre", .str "E")]).1
        = .ok [("nombre", .str "E"), ("id", .num 9007199254740992)] ∧
      (DataService.save (envWith idAtLimit true) "clientes"
          [("nombre", .str "E")]).2.localStorage.getItem "clientes"
        = some (.json (.arr [.obj [("id", .num 9007199254740992), ("nombre", .str "A")],
            .obj [("nombre", .str "E"), ("id", .num 9007199254740992)]]))) := by
  decide

/-- Claim C7, amended. Let the collection `getAll` returns be the records `rs`, each with
an id that converts to a safe integer (the numbers `ids`, each at most 2^53 - 1 in size),
let the incoming record have no id, and let storage accept writes under the entity's key.
Then `save` returns the copy of the
incoming record with `id` set to `n`, where `n` is 1 for the empty collection and
otherwise one more than the greatest of `ids`; the other properties are the incoming
ones; and storage holds the serialization of `rs` followed by that record. -/
theorem save_assigns_next_id (env : Env) (entity : String) (item : Record)
    (rs : List Record) (ids : List Int)
    (hcol : (DataService.getAll env entity).value = .arr (rs.map Item.obj))
    (hnoid : hasProp item "id" = false)
    (hids : rs.map (fun r => Number (getProp r "id")) = ids.map JSNum.fin)
    (hsafe : ∀ m ∈ ids, -Number.MAX_SAFE_INTEGER ≤ m ∧ m ≤ Number.MAX_SAFE_INTEGER)
    (hw : ∀ t, env.localStorage.accepts entity t = true) :
    ∃ n : Int, (ids = [] → n = 1) ∧ (ids ≠ [] → n - 1 ∈ ids ∧ ∀ m ∈ ids, m ≤ n - 1) ∧
      (DataService.save env entity item).1 = .ok (setProp (spread item) "id" (.num n)) ∧
      getProp (setProp (spread item) "id" (.num n)) "id" = .num n ∧
      (∀ key, key ≠ "id" →
        getProp (setProp (spread item) "id" (.num n)) key = getProp item key) ∧
      (DataService.save env entity item).2.localStorage.getItem entity
        = some (JSON.stringify
            (.arr ((rs ++ [setProp (spread item) "id" (.num n)]).map Item.obj))) := by
  obtain ⟨n, hn, h1, h2⟩ := getNextId_records rs ids hids hsafe
  have hs := saveItems_create item rs n hnoid hn
  rw [← hcol] at hs
  have hst := save_storage env entity item _ _ hs hw
  refine ⟨n, h1, h2, hst.1, ?_, ?_, hst.2⟩
  · rw [getProp_setProp]; simp
  · intro key hk
    rw [getProp_setProp, getProp_spread]
    simp [Ne.symm hk]

/-- Claim C7, amended, on the stored ids 1, 2, 4: the assigned id is 5. -/
theorem save_assigns_next_id_witness :
    (DataService.save (envWith idsOneTwoFour true) "clientes" [("nombre", .str "E")]).1
      = .ok [("nombre", .str "E"), ("id", .num 5)] := by
  obtain ⟨n, -, h1, hret, -⟩ :=
    save_assigns_next_id (envWith idsOneTwoFour true) "clientes" [("nombre", .str "E")]
      idsOneTwoFour [1, 2, 4] (by decide) (by decide) (by decide) (by decide) (fun _ => rfl)
  obtain ⟨hmem, hmax⟩ := h1 (by decide)
  have h4 := hmax 4 (by decide)
  have hn : n = 5 := by
    simp only [List.mem_cons, List.mem_singleton, List.not_mem_nil, or_false] at hmem
    omega
  rw [hret, hn]
  decide

/-- Claim C8 does not hold as stated. First, an id that is present but falsy is not kept:
saving a record with id 0 on the stored empty collection (write accepted) returns and
stores it with id 1. Second, when storage rejects the write nothing is persisted: after
saving a record with the unused id 9 on the stored ids 1, 2, 3, storage holds the three
old records only. -/
theorem save_append_counterexample :
    ((DataService.getAll (envWith [] true) "clientes").value = .arr [] ∧
      hasProp [("id", .num 0), ("nombre", .str "X")] "id" = true ∧
      (DataService.save (envWith [] true) "clientes"
          [("id", .num 0), ("nombre", .str "X")]).1
        = .ok [("id", .num 1), ("nombre", .str "X")] ∧
      (DataService.save (envWith [] true) "clientes"
          [("id", .num 0), ("nombre", .str "X")]).2.localStorage.getItem "clientes"
        = some (.json (.arr [.obj [("id", .num 1), ("nombre", .str "X")]])))
    ∧ ((DataService.save (envWith idsOneTwoThree false) "clientes"
          [("id", .num 9), ("nombre", .str "Z")]).1
        = .ok [("id", .num 9), ("nombre", .str "Z")] ∧
      (DataService.save (envWith idsOneTwoThree false) "clientes"
          [("id", .num 9), ("nombre", .str "Z")]).2.localStorage.getItem "clientes"
        = some (.json (.arr (idsOneTwoThree.map Item.obj)))) := by
  decide

/-- Claim C8, amended. Let the collection `getAll` returns be the records `rs`, let the
incoming record have a truthy id that numerically equals the id of no record of `rs`, and
let storage accept writes under the entity's key. Then `save` returns the copy of the
incoming record, with every property, the id included, as the caller gave it, and storage
holds the serialization of `rs` followed by that record. -/
theorem save_appends_unmatched_id (env : Env) (entity : String) (item : Record)
    (rs : List Record)
    (hcol : (DataService.getAll env entity).value = .arr (rs.map Item.obj))
    (hid : (getProp item "id").truthy = true)
    (hnone : ∀ q ∈ rs, recordIdMatches (getProp item "id") q = false)
    (hw : ∀ t, env.localStorage.accepts entity t = true) :
    (DataService.save env entity item).1 = .ok (spread item) ∧
    (∀ key, getProp (spread item) key = getProp item key) ∧
    (DataService.save env entity item).2.localStorage.getItem entity
      = some (JSON.stringify (.arr ((rs ++ [spread item]).map Item.obj))) := by
  have hs := saveItems_append item rs hid hnone
  rw [← hcol] at hs
  have hst := save_storage env entity item _ _ hs hw
  exact ⟨hst.1, fun key => getProp_spread item key, hst.2⟩

/-- Claim C8, amended, on the stored ids 1, 2, 3: a record with id 9 is appended as it is. -/
theorem save_appends_unmatched_id_witness :
    (DataService.save (envWith idsOneTwoThree true) "clientes"
        [("id", .num 9), ("nombre", .str "Z")]).1
      = .ok [("id", .num 9), ("nombre", .str "Z")] ∧
    (DataService.save (envWith idsOneTwoThree true) "clientes"
        [("id", .num 9), ("nombre", .str "Z")]).2.localStorage.getItem "clientes"
      = some (.json (.arr [.obj [("id", .num 1), ("nombre", .str "A")],
          .obj [("id", .num 2), ("nombre", .str "B")],
          .obj [("id", .num 3), ("nombre", .str "C")],
          .obj [("id", .num 9), ("nombre", .str "Z")]])) := by
  have h := save_appends_unmatched_id (envWith idsOneTwoThree true) "clientes"
    [("id", .num 9), ("nombre", .str "Z")] idsOneTwoThree (by decide) (by decide)
    (by decide) (fun _ => rfl)
  exact ⟨h.1.trans (by decide), h.2.2.trans (by decide)⟩

/-- Claim C9 at the failing input: with client 2 stored (id, nombre, estado), saving the
record with id 2 and a new `estado` stores the merged record, which keeps `nombre`, but
returns the copy of the incoming record, which has no `nombre`. -/
theorem save_merge_returns_incoming :
    (DataService.save (envWith oneClient true) "clientes"
        [("id", .num 2), ("estado", .str "Inactivo")]).1
      = .ok [("id", .num 2), ("estado", .str "Inactivo")] ∧
    (DataService.save (envWith oneClient true) "clientes"
        [("id", .num 2), ("estado", .str "Inactivo")]).2.localStorage.getItem "clientes"
      = some (.json (.arr [.obj [("id", .num 2),
          ("nombre", .str "Industrias Solares del Norte"), ("estado", .str "Inactivo")]])) ∧
    getProp [("id", .num 2), ("estado", .str "Inactivo")] "nombre" = .undefined := by
  decide

/-! ## Writing: `delete` -/

/-- Claim C10 does not hold as stated: when storage rejects the write, deleting the
existing id 2 from the stored ids 1, 2, 3 returns false and storage still holds the
three records. -/
theorem delete_write_rejected :
    recordIdMatches (.num 2) [("id", .num 2), ("nombre", .str "B")] = true ∧
    (DataService.delete (envWith idsOneTwoThree false) "clientes" (.num 2)).1 = .ok false ∧
    (DataService.delete (envWith idsOneTwoThree false) "clientes"
        (.num 2)).2.localStorage.getItem "clientes"
      = some (.json (.arr (idsOneTwoThree.map Item.obj))) := by
  decide

/-- Claim C10, amended. Let the collection `getAll` returns be the records `rs`, let at
least one of them have an id numerically equal to the given id, and let storage accept
writes under the entity's key. Then `delete` returns true and storage holds the
serialization of exactly the records of `rs` whose id does not numerically equal the
given id, in their original order. -/
theorem delete_removes_matching (env : Env) (entity : String) (id : Val) (rs : List Record)
    (hcol : (DataService.getAll env entity).value = .arr (rs.map Item.obj))
    (hex : ∃ r ∈ rs, recordIdMatches id r = true)
    (hw : ∀ t, env.localStorage.accepts entity t = true) :
    (DataService.delete env entity id).1 = .ok true ∧
    (DataService.delete env entity id).2.localStorage.getItem entity
      = some (JSON.stringify
          (.arr ((rs.filter (fun r => !recordIdMatches id r)).map Item.obj))) := by
  have hlen : (rs.filter (fun r => !recordIdMatches id r)).length ≠ rs.length := by
    intro heq
    have hall := List.filter_length_eq_length.mp heq
    obtain ⟨r, hr, hm⟩ := hex
    have := hall r hr
    simp [hm] at this
  have hacc : (DataService.getAll env entity).env.localStorage.accepts entity
      (JSON.stringify (.arr ((rs.filter (fun r => !recordIdMatches id r)).map Item.obj)))
        = true := by
    rw [getAll_accepts]; exact hw _
  unfold DataService.delete
  simp only [hcol, JSVal.asArray, filterItems_records, List.length_map, ne_eq,
    Ne.symm hlen, not_false_eq_true, if_true, LocalStorage.setItem, hacc]
  simp [LocalStorage.getItem]

/-- Claim C10, amended, on the stored ids 1, 2, 3: deleting 2 returns true and leaves the
records 1 and 3. -/
theorem delete_removes_matching_witness :
    (DataService.delete (envWith idsOneTwoThree true) "clientes" (.num 2)).1 = .ok true ∧
    (DataService.delete (envWith idsOneTwoThree true) "clientes"
        (.num 2)).2.localStorage.getItem "clientes"
      = some (.json (.arr [.obj [("id", .num 1), ("nombre", .str "A")],
          .obj [("id", .num 3), ("nombre", .str "C")]])) := by
  have h := delete_removes_matching (envWith idsOneTwoThree true) "clientes" (.num 2)
    idsOneTwoThree (by decide)
    ⟨[("id", Val.num 2), ("nombre", Val.str "B")], by decide, by decide⟩ (fun _ => rfl)
  exact ⟨h.1, h.2.trans (by decide)⟩

/-! ## The three paths of `getAll` -/

theorem getAll_of_hit (env : Env) (entity : String) (v : JSVal)
    (h : readLocal (env.localStorage.getItem entity) = some v) :
    DataService.getAll env entity = { value := v, isFixture := false, env := env } := by
  simp [DataService.getAll, h]

theorem getAll_of_fixture (env : Env) (entity : String) (md : String → JSVal)
    (h : readLocal (env.localStorage.getItem entity) = none) (hmd : env.mockData = some md)
    (ht : (md entity).truthy = true) :
    DataService.getAll env entity
      = { value := md entity
          isFixture := true
          env := { env with
            localStorage :=
              env.localStorage.trySetItem entity (JSON.stringify (md entity)) } } := by
  simp [DataService.getAll, h, hmd, ht]

theorem getAll_of_nothing (env : Env) (entity : String)
    (h : readLocal (env.localStorage.getItem entity) = none)
    (hno : ∀ md, env.mockData = some md → (md entity).truthy = false) :
    DataService.getAll env entity = { value := .arr [], isFixture := false, env := env } := by
  unfold DataService.getAll
  rw [h]
  cases hmd : env.mockData with
  | none => rfl
  | some md => simp [hno md hmd]

theorem readLocal_json (v : JSVal) : readLocal (some (.json v)) = some v := rfl

theorem trySetItem_of_rejected (ls : LocalStorage) (key : String) (text : StoredText)
    (h : ls.accepts key text = false) : ls.trySetItem key text = ls := by
  simp [LocalStorage.trySetItem, LocalStorage.setItem, h]

theorem getItem_trySetItem_other (ls : LocalStorage) (key k : String) (text : StoredText)
    (hk : k ≠ key) : (ls.trySetItem key text).getItem k = ls.getItem k := by
  unfold LocalStorage.trySetItem LocalStorage.setItem
  by_cases ha : ls.accepts key text = true
  · simp [ha, LocalStorage.getItem, hk]
  · simp [ha]

theorem getAll_mockData (env : Env) (entity : String) :
    (DataService.getAll env entity).env.mockData = env.mockData := by
  cases h : readLocal (env.localStorage.getItem entity) with
  | some v => rw [getAll_of_hit env entity v h]
  | none =>
    cases hmd : env.mockData with
    | none =>
      rw [getAll_of_nothing env entity h (fun md h2 => by rw [hmd] at h2; cases h2)]
      exact hmd
    | some md =>
      by_cases ht : (md entity).truthy = true
      · rw [getAll_of_fixture env entity md h hmd ht]
        exact hmd
      · have ht2 : (md entity).truthy = false := by simpa using ht
        rw [getAll_of_nothing env entity h
          (fun md2 h2 => by rw [hmd] at h2; cases h2; exact ht2)]
        exact hmd

theorem getById_env (env : Env) (entity : String) (id : Val) :
    (DataService.getById env entity id).2 = (DataService.getAll env entity).env := by
  unfold DataService.getById
  dsimp only
  split
  · rfl
  · split <;> rfl

theorem filter_env (toLowerCase : String → String) (env : Env) (entity : String)
    (criteria : Record) :
    (DataService.filter toLowerCase env entity criteria).2
      = (DataService.getAll env entity).env := by
  unfold DataService.filter
  dsimp only
  split
  · rfl
  · split <;> rfl

theorem getAll_cacheFillOnly (env : Env) (entity : String) :
    cacheFillOnly env entity (DataService.getAll env entity).env := by
  cases h : readLocal (env.localStorage.getItem entity) with
  | some v => rw [getAll_of_hit env entity v h]; exact Or.inl rfl
  | none =>
    cases hmd : env.mockData with
    | none =>
      rw [getAll_of_nothing env entity h (fun md h2 => by rw [hmd] at h2; cases h2)]
      exact Or.inl rfl
    | some md =>
      by_cases ht : (md entity).truthy = true
      · rw [getAll_of_fixture env entity md h hmd ht]
        by_cases ha : env.localStorage.accepts entity (JSON.stringify (md entity)) = true
        · right
          exact ⟨md, hmd, ht, getItem_trySetItem _ _ _ ha,
            fun k hk => getItem_trySetItem_other _ _ _ _ hk⟩
        · left
          have ha2 : env.localStorage.accepts entity (JSON.stringify (md entity)) = false := by
            simpa using ha
          exact trySetItem_of_rejected _ _ _ ha2
      · have ht2 : (md entity).truthy = false := by simpa using ht
        rw [getAll_of_nothing env entity h
          (fun md2 h2 => by rw [hmd] at h2; cases h2; exact ht2)]
        exact Or.inl rfl

theorem jsonItem_obj_map (rs : List Record) :
    (rs.map Item.obj).map jsonItem = (rs.map jsonRecord).map Item.obj := by
  induction rs with
  | nil => rfl
  | cons r rest ih => simp [jsonItem, ih]

theorem stringify_records (rs : List Record) :
    JSON.stringify (.arr (rs.map Item.obj)) = .json (.arr ((rs.map jsonRecord).map Item.obj)) := by
  show StoredText.json (.arr ((rs.map Item.obj).map jsonItem)) = _
  rw [jsonItem_obj_map]

theorem getAll_again (env : Env) (entity : String) (rs : List Record)
    (hcol : (DataService.getAll env entity).value = .arr (rs.map Item.obj))
    (hfix : (DataService.getAll env entity).isFixture = true → rs.map jsonRecord = rs) :
    (DataService.getAll (DataService.getAll env entity).env entity).value
      = .arr (rs.map Item.obj) := by
  cases h : readLocal (env.localStorage.getItem entity) with
  | some v =>
    rw [getAll_of_hit env entity v h] at hcol ⊢
    simpa [getAll_of_hit env entity v h] using hcol
  | none =>
    cases hmd : env.mockData with
    | none =>
      have hn := getAll_of_nothing env entity h (fun md h2 => by rw [hmd] at h2; cases h2)
      rw [hn] at hcol ⊢
      simpa [hn] using hcol
    | some md =>
      by_cases ht : (md entity).truthy = true
      · have hf := getAll_of_fixture env entity md h hmd ht
        rw [hf] at hcol hfix
        simp only at hcol hfix
        have hclean := hfix trivial
        by_cases ha : env.localStorage.accepts entity (JSON.stringify (md entity)) = true
        · rw [hf]
          simp only
          apply (congrArg Fetched.value (getAll_of_hit _ entity (.arr (rs.map Item.obj)) ?_)).trans rfl
          simp only
          rw [getItem_trySetItem _ _ _ ha, hcol, stringify_records, hclean]
          rfl
        · have ha2 : env.localStorage.accepts entity (JSON.stringify (md entity)) = false := by
            simpa using ha
          have he : (DataService.getAll env entity).env = env := by
            rw [hf]; simp only; rw [trySetItem_of_rejected _ _ _ ha2]
          rw [he, hf]
          exact hcol
      · have ht2 : (md entity).truthy = false := by simpa using ht
        have hn := getAll_of_nothing env entity h
          (fun md2 h2 => by rw [hmd] at h2; cases h2; exact ht2)
        rw [hn] at hcol ⊢
        simpa [hn] using hcol

theorem getAll_again_cases (env : Env) (entity : String) (rs : List Record)
    (hcol : (DataService.getAll env entity).value = .arr (rs.map Item.obj)) :
    (DataService.getAll (DataService.getAll env entity).env entity).value
        = .arr (rs.map Item.obj) ∨
    (DataService.getAll (DataService.getAll env entity).env entity).value
        = .arr ((rs.map jsonRecord).map Item.obj) := by
  cases h : readLocal (env.localStorage.getItem entity) with
  | some v =>
    left
    rw [getAll_of_hit env entity v h] at hcol ⊢
    simpa [getAll_of_hit env entity v h] using hcol
  | none =>
    cases hmd : env.mockData with
    | none =>
      left
      have hn := getAll_of_nothing env entity h (fun md h2 => by rw [hmd] at h2; cases h2)
      rw [hn] at hcol ⊢
      simpa [hn] using hcol
    | some md =>
      by_cases ht : (md entity).truthy = true
      · have hf := getAll_of_fixture env entity md h hmd ht
        rw [hf] at hcol
        simp only at hcol
        by_cases ha : env.localStorage.accepts entity (JSON.stringify (md entity)) = true
        · right
          rw [hf]
          simp only
          apply (congrArg Fetched.value
            (getAll_of_hit _ entity (.arr ((rs.map jsonRecord).map Item.obj)) ?_)).trans rfl
          simp only
          rw [getItem_trySetItem _ _ _ ha, hcol, stringify_records]
          rfl
        · left
          have ha2 : env.localStorage.accepts entity (JSON.stringify (md entity)) = false := by
            simpa using ha
          have he : (DataService.getAll env entity).env = env := by
            rw [hf]; simp only; rw [trySetItem_of_rejected _ _ _ ha2]
          rw [he, hf]
          exact hcol
      · left
        have ht2 : (md entity).truthy = false := by simpa using ht
        have hn := getAll_of_nothing env entity h
          (fun md2 h2 => by rw [hmd] at h2; cases h2; exact ht2)
        rw [hn] at hcol ⊢
        simpa [hn] using hcol

/-! ## `delete` when nothing is removed -/

/-- Claim C11 does not hold as stated: the collection read after the call can differ from
the one read before it. In the environment `envUnsavedRecord` the collection of "clientes"
is the fixture array, whose seventh record (id 7) has the field valor `NaN`, and no record
has the id 99. There `delete("clientes", 99)` returns false, but its `getAll` stores the
serialized fixture, so `getAll` afterwards returns the stored copy, whose seventh record
has valor `null`. -/
theorem delete_missing_changes_read :
    (DataService.getAll envUnsavedRecord "clientes").value
      = .arr (mockClientes ++ [.obj [("nombre", .str "X"), ("valor", .nan), ("id", .num 7)]]) ∧
    (recordsOf (mockClientes
        ++ [.obj [("nombre", .str "X"), ("valor", .nan), ("id", .num 7)]])).all
      (fun r => !recordIdMatches (.num 99) r) = true ∧
    (DataService.delete envUnsavedRecord "clientes" (.num 99)).1 = .ok false ∧
    (DataService.getAll (DataService.delete envUnsavedRecord "clientes" (.num 99)).2
        "clientes").value
      = .arr (mockClientes ++ [.obj [("nombre", .str "X"), ("valor", .null), ("id", .num 7)]]) ∧
    (DataService.getAll (DataService.delete envUnsavedRecord "clientes" (.num 99)).2
        "clientes").value
      ≠ (DataService.getAll envUnsavedRecord "clientes").value := by
  decide

/-- Claim C11, amended. Let the collection `getAll` returns be the records `rs`, none of
which has an id numerically equal to the given id. Then `delete` returns false without
raising, and the environment it leaves is the one a plain `getAll` leaves (it writes
nothing itself). `getAll` afterwards returns the same records `rs` whenever the collection
was not the fixture, or was a fixture whose records are JSON values (serializing and
parsing gives them back); in every case it returns `rs` or the stored copies of `rs`, in
which a `NaN` field is `null`. -/
theorem delete_missing_id (env : Env) (entity : String) (id : Val) (rs : List Record)
    (hcol : (DataService.getAll env entity).value = .arr (rs.map Item.obj))
    (hnone : ∀ r ∈ rs, recordIdMatches id r = false) :
    (DataService.delete env entity id).1 = .ok false ∧
    (DataService.delete env entity id).2 = (DataService.getAll env entity).env ∧
    (((DataService.getAll env entity).isFixture = true → rs.map jsonRecord = rs) →
      (DataService.getAll (DataService.delete env entity id).2 entity).value
        = .arr (rs.map Item.obj)) ∧
    ((DataService.getAll (DataService.delete env entity id).2 entity).value
        = .arr (rs.map Item.obj) ∨
      (DataService.getAll (DataService.delete env entity id).2 entity).value
        = .arr ((rs.map jsonRecord).map Item.obj)) := by
  have hkeep : rs.filter (fun r => !recordIdMatches id r) = rs := by
    apply List.filter_eq_self.mpr
    intro r hr
    simp [hnone r hr]
  have hd : DataService.delete env entity id
      = (.ok false, (DataService.getAll env entity).env) := by
    unfold DataService.delete
    simp only [hcol, JSVal.asArray, filterItems_records, hkeep, ne_eq, not_true_eq_false,
      if_false]
  rw [hd]
  exact ⟨rfl, rfl, fun hfix => getAll_again env entity rs hcol hfix,
    getAll_again_cases env entity rs hcol⟩

/-- Claim C11, amended, at two states. On the stored ids 1, 2, 3, deleting 99 returns false
and the collection read afterwards is the same; on a first visit, where the collection is
the fixture of "clientes", deleting 99 returns false and the six clients are read
afterwards. -/
theorem delete_missing_id_witness :
    ((DataService.delete (envWith idsOneTwoThree true) "clientes" (.num 99)).1 = .ok false ∧
      (DataService.getAll (DataService.delete (envWith idsOneTwoThree true) "clientes"
          (.num 99)).2 "clientes").value = .arr (idsOneTwoThree.map Item.obj)) ∧
    ((DataService.delete (envFresh true) "clientes" (.num 99)).1 = .ok false ∧
      (DataService.getAll (DataService.delete (envFresh true) "clientes"
          (.num 99)).2 "clientes").value = .arr mockClientes) := by
  have h := delete_missing_id (envWith idsOneTwoThree true) "clientes" (.num 99)
    idsOneTwoThree (by decide) (by decide)
  have h2 := delete_missing_id (envFresh true) "clientes" (.num 99)
    (recordsOf mockClientes) (by decide) (by decide)
  exact ⟨⟨h.1, h.2.2.1 (fun h => absurd h (by decide))⟩,
    ⟨h2.1, (h2.2.2.1 (fun _ => by decide)).trans (by decide)⟩⟩

/-- Claim C12. Let the collection `getAll` returns be the records `rs`, at least one of
which has an id numerically equal to the given id, and let storage reject the write of
the filtered collection. Then `delete` does not raise and returns false, it leaves the
environment a plain `getAll` leaves, and when the collection was persisted (the key held
a text that parses) the whole environment, so the persisted collection, is unchanged. -/
theorem delete_write_fails (env : Env) (entity : String) (id : Val) (rs : List Record)
    (hcol : (DataService.getAll env entity).value = .arr (rs.map Item.obj))
    (hex : ∃ r ∈ rs, recordIdMatches id r = true)
    (hrej : env.localStorage.accepts entity
      (JSON.stringify (.arr ((rs.filter (fun r => !recordIdMatches id r)).map Item.obj)))
        = false) :
    (DataService.delete env entity id).1 = .ok false ∧
    (DataService.delete env entity id).2 = (DataService.getAll env entity).env ∧
    (∀ v, env.localStorage.getItem entity = some (.json v) →
      (DataService.delete env entity id).2 = env) := by
  have hlen : (rs.filter (fun r => !recordIdMatches id r)).length ≠ rs.length := by
    intro heq
    have hall := List.filter_length_eq_length.mp heq
    obtain ⟨r, hr, hm⟩ := hex
    have := hall r hr
    simp [hm] at this
  have hacc : (DataService.getAll env entity).env.localStorage.accepts entity
      (JSON.stringify (.arr ((rs.filter (fun r => !recordIdMatches id r)).map Item.obj)))
        = false := by
    rw [getAll_accepts]; exact hrej
  have hd : DataService.delete env entity id
      = (.ok false, (DataService.getAll env entity).env) := by
    unfold DataService.delete
    simp only [hcol, JSVal.asArray, filterItems_records, List.length_map, ne_eq,
      Ne.symm hlen, not_false_eq_true, if_true, LocalStorage.setItem, hacc]
    rfl
  rw [hd]
  refine ⟨rfl, rfl, ?_⟩
  intro v hv
  have hr : readLocal (env.localStorage.getItem entity) = some v := by rw [hv]; rfl
  rw [getAll_of_hit env entity v hr]

/-- Claim C12 on the stored ids 1, 2, 3 with a storage that rejects writes: deleting the
existing id 2 returns false and leaves the environment as it was. -/
theorem delete_write_fails_witness :
    (DataService.delete (envWith idsOneTwoThree false) "clientes" (.num 2)).1 = .ok false ∧
    (DataService.delete (envWith idsOneTwoThree false) "clientes" (.num 2)).2
      = envWith idsOneTwoThree false := by
  have h := delete_write_fails (envWith idsOneTwoThree false) "clientes" (.num 2)
    idsOneTwoThree (by decide)
    ⟨[("id", Val.num 2), ("nombre", Val.str "B")], by decide, by decide⟩ rfl
  exact ⟨h.1, h.2.2 _ rfl⟩

/-! ## The effect of the reads on storage -/

/-- Claim C19. For every environment, `getAll`, `getById` and `filter` leave storage
either as it was or changed by the cache fill only: the entity's key then holds the
serialization of the entity's fixture and every other key holds what it held. When the
entity's key already holds a text that parses, the three leave the whole environment,
so storage at every key, unchanged. -/
theorem reads_only_cache_fill (toLowerCase : String → String) (env : Env) (entity : String)
    (id : Val) (criteria : Record) :
    cacheFillOnly env entity (DataService.getAll env entity).env ∧
    cacheFillOnly env entity (DataService.getById env entity id).2 ∧
    cacheFillOnly env entity (DataService.filter toLowerCase env entity criteria).2 ∧
    (∀ v, env.localStorage.getItem entity = some (.json v) →
      (DataService.getAll env entity).env = env ∧
      (DataService.getById env entity id).2 = env ∧
      (DataService.filter toLowerCase env entity criteria).2 = env) := by
  rw [getById_env, filter_env]
  refine ⟨getAll_cacheFillOnly env entity, getAll_cacheFillOnly env entity,
    getAll_cacheFillOnly env entity, ?_⟩
  intro v hv
  have hr : readLocal (env.localStorage.getItem entity) = some v := by rw [hv]; rfl
  rw [getAll_of_hit env entity v hr]
  exact ⟨rfl, rfl, rfl⟩

/-- Claim C19 at two states: with client 2 stored the three reads leave the environment as
it is, and on a first visit `getAll` puts the six clients of the fixture under "clientes". -/
theorem reads_only_cache_fill_witness :
    ((DataService.getAll (envWith oneClient true) "clientes").env = envWith oneClient true ∧
      (DataService.getById (envWith oneClient true) "clientes" (.num 2)).2
        = envWith oneClient true ∧
      (DataService.filter latinToLowerCase (envWith oneClient true) "clientes"
        [("nombre", .str "sol")]).2 = envWith oneClient true) ∧
    cacheFillOnly (envFresh true) "clientes"
      (DataService.getAll (envFresh true) "clientes").env ∧
    (DataService.getAll (envFresh true) "clientes").env.localStorage.getItem "clientes"
      = some (.json (.arr mockClientes)) :=
  ⟨(reads_only_cache_fill latinToLowerCase (envWith oneClient true) "clientes" (.num 2)
      [("nombre", .str "sol")]).2.2.2 _ rfl,
    (reads_only_cache_fill latinToLowerCase (envFresh true) "clientes" (.num 2) []).1,
    by decide⟩

/-! ## Filtering -/

theorem startsWithChars_iff (p cs : List Char) :
    startsWithChars p cs = true ↔ ∃ after, cs = p ++ after := by
  induction p generalizing cs with
  | nil => simp [startsWithChars]
  | cons a rest ih =>
    cases cs with
    | nil => simp [startsWithChars]
    | cons c cs =>
      simp only [startsWithChars, Bool.and_eq_true, decide_eq_true_eq, ih, List.cons_append,
        List.cons.injEq]
      constructor
      · rintro ⟨h1, after, h2⟩
        exact ⟨after, h1.symm, h2⟩
      · rintro ⟨after, h1, h2⟩
        exact ⟨h1.symm, after, h2⟩

theorem includesChars_iff (needle cs : List Char) :
    includesChars needle cs = true ↔ ∃ before after, cs = before ++ needle ++ after := by
  induction cs with
  | nil =>
    cases needle with
    | nil => simp [includesChars]
    | cons a rest => simp [includesChars]
  | cons c cs ih =>
    simp only [includesChars, Bool.or_eq_true, startsWithChars_iff, ih]
    constructor
    · rintro (⟨after, h⟩ | ⟨before, after, h⟩)
      · exact ⟨[], after, by simpa using h⟩
      · exact ⟨c :: before, after, by simp [h]⟩
    · rintro ⟨before, after, h⟩
      cases before with
      | nil => left; exact ⟨after, by simpa using h⟩
      | cons b bs =>
        right
        simp only [List.cons_append, List.cons.injEq] at h
        exact ⟨bs, after, h.2⟩

theorem fieldMismatch_iff (toLowerCase : String → String) (v c : Val) :
    fieldMismatch toLowerCase v c = false ↔ fieldMeets toLowerCase v c := by
  cases v <;> cases c <;>
    simp [fieldMismatch, fieldMeets, includes, includesChars_iff]

theorem truthy_ne_empty (c : Val) (h : c.truthy = true) : strictEq c (.str "") = false := by
  cases c <;> simp_all [strictEq, Val.truthy]

theorem criteriaHold_obj (toLowerCase : String → String) (criteria r : Record)
    (keys : List String) :
    criteriaHold toLowerCase criteria (.obj r) keys
      = .ok (keys.all (fun key =>
          !(getProp criteria key).truthy ||
            !(fieldMismatch toLowerCase (getProp r key) (getProp criteria key)))) := by
  induction keys with
  | nil => rfl
  | cons key rest ih =>
    by_cases ht : (getProp criteria key).truthy = true
    · by_cases hm : fieldMismatch toLowerCase (getProp r key) (getProp criteria key) = true
      · simp [criteriaHold, ht, truthy_ne_empty _ ht, itemProp, hm]
      · simp [criteriaHold, ht, truthy_ne_empty _ ht, itemProp, hm, ih]
    · simp [criteriaHold, ht, ih]

theorem all_keys (l : Record) (p : String → Bool) :
    (l.map Prod.fst).all p = l.all (fun kv => p kv.1) := by
  induction l with
  | nil => rfl
  | cons kv rest ih => simp only [List.map_cons, List.all_cons, ih]

theorem filterItems_of_records (p : Item → Except JSError Bool) (q : Record → Bool)
    (h : ∀ r, p (.obj r) = .ok (q r)) (rs : List Record) :
    filterItems p (rs.map Item.obj) = .ok ((rs.filter q).map Item.obj) := by
  induction rs with
  | nil => rfl
  | cons r rest ih =>
    by_cases hq : q r = true
    · simp [filterItems, h, ih, hq]
    · simp [filterItems, h, ih, hq]

theorem hasProp_iff_mem (r : Record) (key : String) :
    hasProp r key = true ↔ key ∈ r.map Prod.fst := by
  unfold hasProp
  induction r with
  | nil => simp [findProp]
  | cons kv rest ih =>
    obtain ⟨k, v⟩ := kv
    rw [findProp_cons]
    cases hf : findProp rest key with
    | some w =>
      rw [hf] at ih
      simp only [Option.isSome_some, true_iff] at ih
      simp [ih]
    | none =>
      rw [hf] at ih
      have hn : key ∉ rest.map Prod.fst := by
        intro hm; have := ih.mpr hm; simp at this
      by_cases hk : k = key
      · simp [hk]
      · have hk2 : ¬ key = k := fun h => hk h.symm
        simp only [hk, if_false, List.map_cons, List.mem_cons, hk2, false_or]
        constructor
        · intro h; simp at h
        · intro h; exact absurd h hn

/-- Claim C13. When `getAll(entity)` is a sequence of records `rs`, `filter` returns, in the
order of `rs`, exactly the records that satisfy the criteria; and a record satisfies them
exactly when, for every field of the criteria whose value is truthy, either the record's
field and the criterion are both strings and the lower-cased field contains the
lower-cased criterion, or they are not both strings and are strictly equal. This holds
for every case mapping `toLowerCase`. -/
theorem filter_returns_matching (toLowerCase : String → String) (env : Env)
    (entity : String) (criteria : Record) (rs : List Record)
    (hcol : (DataService.getAll env entity).value = .arr (rs.map Item.obj)) :
    (DataService.filter toLowerCase env entity criteria).1
      = .ok ((rs.filter (satisfiesCriteria toLowerCase criteria)).map Item.obj)
    ∧ ∀ r, satisfiesCriteria toLowerCase criteria r = true ↔
        ∀ key, hasProp criteria key = true → (getProp criteria key).truthy = true →
          fieldMeets toLowerCase (getProp r key) (getProp criteria key) := by
  constructor
  · have hcb : ∀ r, criteriaHold toLowerCase criteria (.obj r) (criteria.map Prod.fst)
        = .ok (satisfiesCriteria toLowerCase criteria r) := by
      intro r
      rw [criteriaHold_obj]
      congr 1
      unfold satisfiesCriteria
      exact all_keys criteria _
    have hf := filterItems_of_records
      (fun item => criteriaHold toLowerCase criteria item (criteria.map Prod.fst))
      (satisfiesCriteria toLowerCase criteria) hcb rs
    unfold DataService.filter
    simp only [hcol, JSVal.asArray, hf]
  · intro r
    simp only [satisfiesCriteria, List.all_eq_true, Bool.or_eq_true, Bool.not_eq_true',
      fieldMismatch_iff, hasProp_iff_mem, List.mem_map]
    constructor
    · rintro h key ⟨kv, hkv, rfl⟩ ht
      rcases h kv hkv with h1 | h1
      · rw [h1] at ht; cases ht
      · exact h1
    · intro h kv hkv
      by_cases ht : (getProp criteria kv.1).truthy = true
      · right; exact h kv.1 ⟨kv, hkv, rfl⟩ ht
      · left; simpa using ht

/-- Claim C13 on a first visit, with the case mapping of Latin text: the criterion
nombre "sol" keeps the clients 2, 4 and 6, among them "Corporación Solar Pacífico". -/
theorem filter_returns_matching_witness :
    (DataService.filter latinToLowerCase (envFresh true) "clientes"
        [("nombre", .str "sol")]).1
      = .ok [.obj [("id", .num 2), ("nombre", .str "Industrias Solares del Norte"),
          ("contacto", .str "Juan Pérez"), ("email", .str "jperez@indsol.com"),
          ("estado", .str "Activo")],
        .obj [("id", .num 4), ("nombre", .str "Corporación Solar Pacífico"),
          ("contacto", .str "Ana Torres"), ("email", .str "atorres@solpac.com"),
          ("estado", .str "Activo")],
        .obj [("id", .num 6), ("nombre", .str "AgroSolar Servicios"),
          ("contacto", .str "Laura Martínez"), ("email", .str "lmartinez@agrosolar.com"),
          ("estado", .str "Inactivo")]] :=
  (filter_returns_matching latinToLowerCase (envFresh true) "clientes"
    [("nombre", .str "sol")] (recordsOf mockClientes) (by decide)).1.trans (by decide)

theorem findProp_removeProp (criteria : Record) (key k : String) (hk : k ≠ key) :
    findProp (removeProp criteria key) k = findProp criteria k := by
  unfold removeProp
  induction criteria with
  | nil => rfl
  | cons kv rest ih =>
    obtain ⟨k1, v1⟩ := kv
    by_cases h1 : k1 = key
    · have hne : ¬ k1 = k := fun h => hk (h.symm.trans h1)
      rw [List.filter_cons_of_neg (by simp [h1]), ih, findProp_cons]
      cases findProp rest k <;> simp [hne]
    · rw [List.filter_cons_of_pos (by simp [h1]), findProp_cons, findProp_cons, ih]

theorem getProp_removeProp (criteria : Record) (key k : String) (hk : k ≠ key) :
    getProp (removeProp criteria key) k = getProp criteria k := by
  unfold getProp
  rw [findProp_removeProp criteria key k hk]

theorem keys_removeProp (criteria : Record) (key : String) :
    (removeProp criteria key).map Prod.fst
      = (criteria.map Prod.fst).filter (fun k => decide (k ≠ key)) := by
  unfold removeProp
  induction criteria with
  | nil => rfl
  | cons kv rest ih =>
    by_cases h1 : kv.1 = key
    · rw [List.filter_cons_of_neg (by simp [h1]), List.map_cons,
        List.filter_cons_of_neg (by simp [h1]), ih]
    · rw [List.filter_cons_of_pos (by simp [h1]), List.map_cons, List.map_cons,
        List.filter_cons_of_pos (by simp [h1]), ih]

theorem criteriaHold_removeProp (toLowerCase : String → String) (criteria : Record)
    (key : String) (hfalsy : (getProp criteria key).truthy = false) (item : Item)
    (keys : List String) :
    criteriaHold toLowerCase criteria item keys
      = criteriaHold toLowerCase (removeProp criteria key) item
          (keys.filter (fun k => decide (k ≠ key))) := by
  induction keys with
  | nil => rfl
  | cons k rest ih =>
    by_cases hk : k = key
    · subst hk
      rw [List.filter_cons_of_neg (by simp), ← ih]
      simp [criteriaHold, hfalsy]
    · rw [List.filter_cons_of_pos (by simp [hk])]
      simp only [criteriaHold, getProp_removeProp criteria key k hk, ih]

theorem criteriaHold_all_falsy (toLowerCase : String → String) (criteria : Record)
    (hall : ∀ k, (getProp criteria k).truthy = false) (item : Item) (keys : List String) :
    criteriaHold toLowerCase criteria item keys = .ok true := by
  induction keys with
  | nil => rfl
  | cons k rest ih => simp [criteriaHold, hall k, ih]

theorem filterItems_all (p : Item → Except JSError Bool) (h : ∀ x, p x = .ok true)
    (items : List Item) : filterItems p items = .ok items := by
  induction items with
  | nil => rfl
  | cons x rest ih => simp [filterItems, h, ih]

/-- Claim C14. A field of the criteria whose value is falsy (the empty string, 0, false,
null, undefined, NaN) does not count: `filter` gives the same result and the same
environment as with that field removed from the criteria, whatever `getAll` returns; and
when every field of the criteria is falsy, `filter` returns every element of the array
`getAll` returns. -/
theorem filter_ignores_falsy (toLowerCase : String → String) (env : Env) (entity : String)
    (criteria : Record) :
    (∀ key, (getProp criteria key).truthy = false →
      DataService.filter toLowerCase env entity criteria
        = DataService.filter toLowerCase env entity (removeProp criteria key))
    ∧ ((∀ key, (getProp criteria key).truthy = false) →
        ∀ items, (DataService.getAll env entity).value.asArray = some items →
          (DataService.filter toLowerCase env entity criteria).1 = .ok items) := by
  constructor
  · intro key hfalsy
    have hcb : (fun item => criteriaHold toLowerCase criteria item (criteria.map Prod.fst))
        = (fun item => criteriaHold toLowerCase (removeProp criteria key) item
            ((removeProp criteria key).map Prod.fst)) := by
      funext item
      rw [keys_removeProp]
      exact criteriaHold_removeProp toLowerCase criteria key hfalsy item _
    unfold DataService.filter
    rw [hcb]
  · intro hall items hitems
    have hf := filterItems_all
      (fun item => criteriaHold toLowerCase criteria item (criteria.map Prod.fst))
      (fun x => criteriaHold_all_falsy toLowerCase criteria hall x _) items
    unfold DataService.filter
    simp only [hitems, hf]

/-- Claim C14 on a first visit: the empty `estado` next to nombre "sol" changes nothing,
and criteria with empty fields only return the six clients. -/
theorem filter_ignores_falsy_witness :
    DataService.filter latinToLowerCase (envFresh true) "clientes"
        [("nombre", .str "sol"), ("estado", .str "")]
      = DataService.filter latinToLowerCase (envFresh true) "clientes"
          [("nombre", .str "sol")] ∧
    (DataService.filter latinToLowerCase (envFresh true) "clientes"
        [("nombre", .str ""), ("id", .num 0)]).1 = .ok mockClientes :=
  ⟨(filter_ignores_falsy latinToLowerCase (envFresh true) "clientes"
      [("nombre", .str "sol"), ("estado", .str "")]).1 "estado" (by decide),
    (filter_ignores_falsy latinToLowerCase (envFresh true) "clientes"
      [("nombre", .str ""), ("id", .num 0)]).2
      (fun key => by
        by_cases h1 : key = "nombre"
        · subst h1; decide
        · by_cases h2 : key = "id"
          · subst h2; decide
          · have h3 : ¬ "nombre" = key := fun h => h1 h.symm
            have h4 : ¬ "id" = key := fun h => h2 h.symm
            simp [getProp, findProp, h3, h4, Val.truthy])
      mockClientes (by decide)⟩

/-! ## Arrays without `null` elements: no operation raises -/

theorem idOf_defined (x : Item) (h : x.defined = true) : ∃ v, idOf x = .ok v := by
  cases x with
  | obj r => exact ⟨_, rfl⟩
  | prim v => cases v <;> first | exact ⟨_, rfl⟩ | simp [Item.defined] at h

theorem itemProp_defined (x : Item) (key : String) (h : x.defined = true) :
    ∃ v, itemProp x key = .ok v := by
  cases x with
  | obj r => exact ⟨_, rfl⟩
  | prim v => cases v <;> first | exact ⟨_, rfl⟩ | simp [Item.defined] at h

theorem idMatches_defined (id : Val) (x : Item) (h : x.defined = true) :
    ∃ b, idMatches id x = .ok b := by
  obtain ⟨v, hv⟩ := idOf_defined x h
  have he : idMatches id x = .ok (numStrictEq (Number v) (Number id)) := by
    simp [idMatches, hv]
  exact ⟨_, he⟩

theorem idDiffers_defined (id : Val) (x : Item) (h : x.defined = true) :
    ∃ b, idDiffers id x = .ok b := by
  obtain ⟨b, hb⟩ := idMatches_defined id x h
  have he : idDiffers id x = .ok (!b) := by simp [idDiffers, hb]
  exact ⟨_, he⟩

theorem criteriaHold_defined (toLowerCase : String → String) (criteria : Record) (x : Item)
    (h : x.defined = true) (keys : List String) :
    ∃ b, criteriaHold toLowerCase criteria x keys = .ok b := by
  induction keys with
  | nil => exact ⟨true, rfl⟩
  | cons k rest ih =>
    obtain ⟨b, hb⟩ := ih
    obtain ⟨v, hv⟩ := itemProp_defined x k h
    unfold criteriaHold
    split
    · rw [hv]
      simp only
      split
      · exact ⟨false, rfl⟩
      · exact ⟨b, hb⟩
    · exact ⟨b, hb⟩

theorem findItem_total (p : Item → Except JSError Bool) (items : List Item)
    (h : ∀ x ∈ items, ∃ b, p x = .ok b) : ∃ o, findItem p items = .ok o := by
  induction items with
  | nil => exact ⟨none, rfl⟩
  | cons x rest ih =>
    obtain ⟨b, hb⟩ := h x (List.mem_cons_self _ _)
    obtain ⟨o, ho⟩ := ih (fun y hy => h y (List.mem_cons_of_mem _ hy))
    cases b with
    | true => exact ⟨some x, by simp [findItem, hb]⟩
    | false => exact ⟨o, by simp [findItem, hb, ho]⟩

theorem findIndexItem_total (p : Item → Except JSError Bool) (items : List Item)
    (h : ∀ x ∈ items, ∃ b, p x = .ok b) : ∃ o, findIndexItem p items = .ok o := by
  induction items with
  | nil => exact ⟨none, rfl⟩
  | cons x rest ih =>
    obtain ⟨b, hb⟩ := h x (List.mem_cons_self _ _)
    obtain ⟨o, ho⟩ := ih (fun y hy => h y (List.mem_cons_of_mem _ hy))
    cases b with
    | true => exact ⟨some 0, by simp [findIndexItem, hb]⟩
    | false =>
      cases o with
      | none => exact ⟨none, by simp [findIndexItem, hb, ho]⟩
      | some i => exact ⟨some (i + 1), by simp [findIndexItem, hb, ho]⟩

theorem filterItems_total (p : Item → Except JSError Bool) (items : List Item)
    (h : ∀ x ∈ items, ∃ b, p x = .ok b) : ∃ kept, filterItems p items = .ok kept := by
  induction items with
  | nil => exact ⟨[], rfl⟩
  | cons x rest ih =>
    obtain ⟨b, hb⟩ := h x (List.mem_cons_self _ _)
    obtain ⟨kept, hk⟩ := ih (fun y hy => h y (List.mem_cons_of_mem _ hy))
    have he : filterItems p (x :: rest) = .ok (if b then x :: kept else kept) := by
      simp [filterItems, hb, hk]
    exact ⟨_, he⟩

theorem mapIds_total (items : List Item) (h : ∀ x ∈ items, x.defined = true) :
    ∃ ns, mapIds items = .ok ns ∧ ns.length = items.length := by
  induction items with
  | nil => exact ⟨[], rfl, rfl⟩
  | cons x rest ih =>
    obtain ⟨v, hv⟩ := idOf_defined x (h x (List.mem_cons_self _ _))
    obtain ⟨ns, hn, hl⟩ := ih (fun y hy => h y (List.mem_cons_of_mem _ hy))
    exact ⟨Number v :: ns, by simp [mapIds, hv, hn], by simp [hl]⟩

theorem getNextId_total (value : JSVal) (items : List Item)
    (harr : value.asArray = some items) (h : ∀ x ∈ items, x.defined = true) :
    ∃ v, DataService.getNextId value = .ok v := by
  have hgen : ∀ other : JSVal, other.asArray = some items →
      ∃ v, (match other.asArray with
        | none => (Except.error JSError.typeError : Except JSError Val)
        | some [] => .ok (.num 1)
        | some (x :: xs) =>
          match mapIds (x :: xs) with
          | .error e => .error e
          | .ok [] => .error .typeError
          | .ok (n :: ns) => .ok (ns.foldl jsMax n).succ.toVal) = .ok v := by
    intro other ho
    rw [ho]
    cases items with
    | nil => exact ⟨_, rfl⟩
    | cons x xs =>
      obtain ⟨ns, hn, hl⟩ := mapIds_total (x :: xs) h
      cases ns with
      | nil => simp at hl
      | cons n ns =>
        refine ⟨(ns.foldl jsMax n).succ.toVal, ?_⟩
        simp [hn]
  cases value with
  | arr xs => exact hgen _ harr
  | obj r => simp [JSVal.asArray] at harr
  | prim v =>
    cases v with
    | strs xs => exact hgen _ harr
    | _ => simp [JSVal.asArray] at harr

theorem saveItems_total (value : JSVal) (items : List Item) (item : Record)
    (harr : value.asArray = some items) (h : ∀ x ∈ items, x.defined = true) :
    ∃ r, saveItems value item = .ok r := by
  unfold saveItems
  simp only [harr]
  split
  · obtain ⟨o, ho⟩ := findIndexItem_total (idMatches (getProp (spread item) "id")) items
      (fun x hx => idMatches_defined _ x (h x hx))
    rw [ho]
    cases o with
    | none => exact ⟨_, rfl⟩
    | some i => exact ⟨_, rfl⟩
  · obtain ⟨v, hv⟩ := getNextId_total value items harr h
    rw [hv]
    exact ⟨_, rfl⟩

/-- Claim C15 does not hold as stated. With the well-formed JSON object with the one
property a stored under "clientes", `getAll` returns that object and `getById`, `save`,
`delete` and `filter` all raise a TypeError instead of giving a sentinel result; and with
the well-formed JSON array holding `null` stored there, `getById`, `save` and `delete`
raise a TypeError as well. -/
theorem malformed_shape_raises :
    (envObject.localStorage.getItem "clientes" = some (.json (.obj [("a", .num 1)])) ∧
      (DataService.getAll envObject "clientes").value = .obj [("a", .num 1)] ∧
      (DataService.getById envObject "clientes" (.num 1)).1 = .error .typeError ∧
      (DataService.save envObject "clientes" [("nombre", .str "X")]).1 = .error .typeError ∧
      (DataService.delete envObject "clientes" (.num 1)).1 = .error .typeError ∧
      (DataService.filter latinToLowerCase envObject "clientes" []).1
        = .error .typeError)
    ∧ (envNullElement.localStorage.getItem "clientes" = some (.json (.arr [.prim .null])) ∧
      (DataService.getById envNullElement "clientes" (.num 1)).1 = .error .typeError ∧
      (DataService.save envNullElement "clientes" [("nombre", .str "X")]).1
        = .error .typeError ∧
      (DataService.delete envNullElement "clientes" (.num 1)).1 = .error .typeError) := by
  decide

/-- Claim C15, amended. `getAll` returns a value for every content of storage. Whenever
that value is an array with no `null` or `undefined` element (so whenever the entry is
absent or malformed and the fixture is an array of records or not defined, and whenever
the entry is a well-formed JSON array of records), `getById`, `save`, `delete` and
`filter` complete without raising for every argument; and when the array is empty,
`getById` gives `null`, `delete` gives false and `filter` gives the empty array. -/
theorem operations_complete (toLowerCase : String → String) (env : Env) (entity : String)
    (items : List Item)
    (harr : (DataService.getAll env entity).value.asArray = some items)
    (hdef : ∀ x ∈ items, x.defined = true) :
    (∀ id, ∃ r, (DataService.getById env entity id).1 = .ok r) ∧
    (∀ item, ∃ r, (DataService.save env entity item).1 = .ok r) ∧
    (∀ id, ∃ b, (DataService.delete env entity id).1 = .ok b) ∧
    (∀ criteria, ∃ kept, (DataService.filter toLowerCase env entity criteria).1 = .ok kept) ∧
    (items = [] →
      (∀ id, (DataService.getById env entity id).1 = .ok (.prim .null)) ∧
      (∀ id, (DataService.delete env entity id).1 = .ok false) ∧
      (∀ criteria, (DataService.filter toLowerCase env entity criteria).1 = .ok [])) := by
  refine ⟨?_, ?_, ?_, ?_, ?_⟩
  · intro id
    obtain ⟨o, ho⟩ := findItem_total (idMatches id) items
      (fun x hx => idMatches_defined id x (hdef x hx))
    unfold DataService.getById
    simp only [harr, ho]
    cases o with
    | none => exact ⟨_, rfl⟩
    | some x => exact ⟨_, rfl⟩
  · intro item
    obtain ⟨r, hr⟩ := saveItems_total _ items item harr hdef
    unfold DataService.save
    simp only [hr]
    exact ⟨_, rfl⟩
  · intro id
    obtain ⟨kept, hk⟩ := filterItems_total (idDiffers id) items
      (fun x hx => idDiffers_defined id x (hdef x hx))
    unfold DataService.delete
    simp only [harr, hk]
    split
    · split
      · exact ⟨_, rfl⟩
      · exact ⟨_, rfl⟩
    · exact ⟨_, rfl⟩
  · intro criteria
    obtain ⟨kept, hk⟩ := filterItems_total
      (fun item => criteriaHold toLowerCase criteria item (criteria.map Prod.fst)) items
      (fun x hx => criteriaHold_defined toLowerCase criteria x (hdef x hx) _)
    unfold DataService.filter
    simp only [harr, hk]
    exact ⟨_, rfl⟩
  · intro hnil
    subst hnil
    refine ⟨?_, ?_, ?_⟩
    · intro id
      unfold DataService.getById
      simp only [harr, findItem]
    · intro id
      unfold DataService.delete
      simp [harr, filterItems]
    · intro criteria
      unfold DataService.filter
      simp only [harr, filterItems]

/-- Claim C15, amended, at a malformed "clientes" entry next to the fixture: the four
operations return, and `getById` finds client 3 of the fixture. -/
theorem operations_complete_witness :
    (DataService.getAll envMalformed "clientes").value.asArray = some mockClientes ∧
    (∃ r, (DataService.getById envMalformed "clientes" (.num 3)).1 = .ok r) ∧
    (∃ r, (DataService.save envMalformed "clientes" [("nombre", .str "X")]).1 = .ok r) ∧
    (∃ b, (DataService.delete envMalformed "clientes" (.num 3)).1 = .ok b) ∧
    (∃ kept, (DataService.filter latinToLowerCase envMalformed "clientes"
        [("nombre", .str "sol")]).1 = .ok kept) := by
  have h := operations_complete latinToLowerCase envMalformed "clientes" mockClientes
    (by decide) (by decide)
  exact ⟨by decide, h.1 _, h.2.1 _, h.2.2.1 _, h.2.2.2.1 _⟩

/-! ## Records after serialization -/

theorem findProp_eq_none_iff (r : Record) (key : String) :
    findProp r key = none ↔ key ∉ r.map Prod.fst := by
  rw [← hasProp_iff_mem]
  unfold hasProp
  cases findProp r key <;> simp

theorem setProp_keys_nodup (r : Record) (k : String) (v : Val)
    (h : (r.map Prod.fst).Nodup) : ((setProp r k v).map Prod.fst).Nodup := by
  unfold setProp
  by_cases hp : hasProp r k = true
  · rw [if_pos hp, List.map_map]
    have hf : (Prod.fst ∘ fun kv : String × Val => if kv.1 = k then (kv.1, v) else kv)
        = Prod.fst := by
      funext kv
      by_cases hk : kv.1 = k <;> simp [hk]
    rw [hf]
    exact h
  · rw [if_neg hp, List.map_append]
    have hn : k ∉ r.map Prod.fst := fun hm => hp ((hasProp_iff_mem r k).mpr hm)
    apply List.Nodup.append h (by simp)
    intro a ha hb
    simp only [List.map_cons, List.map_nil, List.mem_singleton] at hb
    rw [hb] at ha
    exact hn ha

theorem assign_keys_nodup (b a : Record) (h : (a.map Prod.fst).Nodup) :
    ((assign a b).map Prod.fst).Nodup := by
  induction b generalizing a with
  | nil => exact h
  | cons kv rest ih =>
    have hstep : assign a (kv :: rest) = assign (setProp a kv.1 kv.2) rest := rfl
    rw [hstep]
    exact ih _ (setProp_keys_nodup a kv.1 kv.2 h)

theorem spread_keys_nodup (r : Record) : ((spread r).map Prod.fst).Nodup :=
  assign_keys_nodup r [] List.nodup_nil

theorem findProp_filterMap_json (s : Record) (hs : (s.map Prod.fst).Nodup) (key : String) :
    findProp (s.filterMap (fun kv => (jsonProp kv.2).map (fun v => (kv.1, v)))) key
      = (findProp s key).bind jsonProp := by
  induction s with
  | nil => rfl
  | cons kv rest ih =>
    obtain ⟨k1, v1⟩ := kv
    simp only [List.map_cons, List.nodup_cons] at hs
    have ih2 := ih hs.2
    rw [findProp_cons]
    by_cases hk : k1 = key
    · subst hk
      have hn : findProp rest k1 = none := (findProp_eq_none_iff rest k1).mpr hs.1
      have ih3 : findProp
          (rest.filterMap (fun kv => (jsonProp kv.2).map (fun v => (kv.1, v)))) k1 = none := by
        rw [ih2, hn]; rfl
      rw [hn]
      have hr : (match (none : Option Val) with
          | some w => some w
          | none => if k1 = k1 then some v1 else none).bind jsonProp = jsonProp v1 := by
        simp
      rw [hr]
      cases hj : jsonProp v1 with
      | none =>
        rw [List.filterMap_cons_none (by simp [hj])]
        exact ih3
      | some w =>
        rw [List.filterMap_cons_some (by simp [hj] : _ = some (k1, w)), findProp_cons, ih3]
        simp
    · have hhead : ∀ w : Val, findProp ((k1, w) ::
          rest.filterMap (fun kv => (jsonProp kv.2).map (fun v => (kv.1, v)))) key
          = (findProp rest key).bind jsonProp := by
        intro w
        rw [findProp_cons, ih2]
        cases (findProp rest key).bind jsonProp <;> simp [hk]
      have hrhs : (match findProp rest key with
          | some w => some w
          | none => if k1 = key then some v1 else none) = findProp rest key := by
        cases findProp rest key <;> simp [hk]
      rw [hrhs]
      cases hj : jsonProp v1 with
      | none =>
        rw [List.filterMap_cons_none (by simp [hj])]
        exact ih2
      | some w =>
        rw [List.filterMap_cons_some (by simp [hj] : _ = some (k1, w))]
        exact hhead w

theorem findProp_jsonRecord (r : Record) (key : String) :
    findProp (jsonRecord r) key = (findProp r key).bind jsonProp := by
  unfold jsonRecord
  rw [findProp_filterMap_json (spread r) (spread_keys_nodup r), findProp_spread]

theorem getProp_jsonRecord (r : Record) (key : String)
    (h : jsonProp (getProp r key) = some (getProp r key)) :
    getProp (jsonRecord r) key = getProp r key := by
  unfold getProp at h ⊢
  rw [findProp_jsonRecord]
  cases hf : findProp r key with
  | none => rw [hf] at h; simp [jsonProp] at h
  | some v =>
    rw [hf] at h
    simp only [Option.getD_some] at h
    simp [h]

theorem jsonProp_of_truthy (v : Val) (h : v.truthy = true) : jsonProp v = some v := by
  cases v <;> simp_all [jsonProp, Val.truthy]

theorem jsonProp_of_number (v : Val) (n : Int) (h : Number v = .fin n) :
    jsonProp v = some v := by
  cases v <;> simp_all [jsonProp, Number]

/-! ## Distinct ids under `save` and `delete` -/

theorem distinctIds_iff (rs : List Record) :
    distinctIds rs ↔ (rs.map idNumber).Pairwise (fun a b => numStrictEq a b = false) := by
  unfold distinctIds
  rw [List.pairwise_map]

theorem distinctIds_congr (rs rs2 : List Record) (h : rs2.map idNumber = rs.map idNumber)
    (hd : distinctIds rs) : distinctIds rs2 := by
  rw [distinctIds_iff] at hd ⊢
  rw [h]
  exact hd

theorem idNumber_jsonRecord (r : Record)
    (h : jsonProp (getProp r "id") = some (getProp r "id")) :
    idNumber (jsonRecord r) = idNumber r := by
  unfold idNumber
  rw [getProp_jsonRecord r "id" h]

theorem map_idNumber_jsonRecord (rs : List Record)
    (h : ∀ r ∈ rs, jsonProp (getProp r "id") = some (getProp r "id")) :
    (rs.map jsonRecord).map idNumber = rs.map idNumber := by
  induction rs with
  | nil => rfl
  | cons r rest ih =>
    simp only [List.map_cons]
    rw [idNumber_jsonRecord r (h r (List.mem_cons_self _ _)),
      ih (fun q hq => h q (List.mem_cons_of_mem _ hq))]

theorem clean_of_positiveIds (rs : List Record) (hpos : positiveIds rs) :
    ∀ r ∈ rs, jsonProp (getProp r "id") = some (getProp r "id") := by
  intro r hr
  obtain ⟨n, -, hn⟩ := hpos r hr
  exact jsonProp_of_number _ n hn

theorem exists_ids (rs : List Record) (hpos : positiveIds rs) :
    ∃ ids : List Int, rs.map (fun r => Number (getProp r "id")) = ids.map JSNum.fin := by
  induction rs with
  | nil => exact ⟨[], rfl⟩
  | cons r rest ih =>
    obtain ⟨n, -, hn⟩ := hpos r (List.mem_cons_self _ _)
    obtain ⟨ids, hids⟩ := ih (fun q hq => hpos q (List.mem_cons_of_mem _ hq))
    refine ⟨n :: ids, ?_⟩
    simp only [List.map_cons, hids]
    unfold idNumber at hn
    rw [hn]

theorem exists_safe_ids (rs : List Record) (hsafe : safeIds rs) :
    ∃ ids : List Int, rs.map (fun r => Number (getProp r "id")) = ids.map JSNum.fin ∧
      ∀ m ∈ ids, -Number.MAX_SAFE_INTEGER ≤ m ∧ m ≤ Number.MAX_SAFE_INTEGER := by
  induction rs with
  | nil => exact ⟨[], rfl, fun m hm => by cases hm⟩
  | cons r rest ih =>
    obtain ⟨n, hlo, hhi, hn⟩ := hsafe r (List.mem_cons_self _ _)
    obtain ⟨ids, hids, hb⟩ := ih (fun q hq => hsafe q (List.mem_cons_of_mem _ hq))
    refine ⟨n :: ids, ?_, ?_⟩
    · simp only [List.map_cons, hids]
      unfold idNumber at hn
      rw [hn]
    · intro m hm
      rcases List.mem_cons.mp hm with h | h
      · rw [h]; exact ⟨hlo, hhi⟩
      · exact hb m h

theorem numStrictEq_eq (a b : JSNum) (h : numStrictEq a b = true) : a = b := by
  cases a <;> cases b <;> simp_all [numStrictEq]

theorem hasProp_of_truthy (r : Record) (key : String) (h : (getProp r key).truthy = true) :
    hasProp r key = true := by
  unfold getProp at h
  unfold hasProp
  cases hf : findProp r key with
  | none => rw [hf] at h; simp [Val.truthy] at h
  | some v => rfl

theorem first_match_split (id : Val) (rs : List Record) :
    (∃ pre r post, rs = pre ++ r :: post ∧ (∀ q ∈ pre, recordIdMatches id q = false) ∧
        recordIdMatches id r = true)
    ∨ (∀ q ∈ rs, recordIdMatches id q = false) := by
  rcases findItem_records id rs with ⟨pre, r, post, he, hpre, hr, -⟩ | ⟨hall, -⟩
  · exact Or.inl ⟨pre, r, post, he, hpre, hr⟩
  · exact Or.inr hall

theorem saveItems_create_falsy (item : Record) (rs : List Record) (n : Int)
    (hfalsy : (getProp item "id").truthy = false)
    (hn : DataService.getNextId (.arr (rs.map Item.obj)) = .ok (.num n)) :
    saveItems (.arr (rs.map Item.obj)) item
      = .ok ((rs ++ [setProp (spread item) "id" (.num n)]).map Item.obj,
          setProp (spread item) "id" (.num n)) := by
  unfold saveItems
  simp [getProp_spread, hfalsy, hn, JSVal.asArray]

theorem saveItems_keeps_distinct (rs : List Record) (hpos : positiveIds rs)
    (hsafe : safeIds rs) (hdist : distinctIds rs) (item : Record) :
    ∃ rs2 newItem, saveItems (.arr (rs.map Item.obj)) item = .ok (rs2.map Item.obj, newItem) ∧
      distinctIds rs2 ∧ ∀ r ∈ rs2, jsonProp (getProp r "id") = some (getProp r "id") := by
  have hclean := clean_of_positiveIds rs hpos
  by_cases hid : (getProp item "id").truthy = true
  · rcases first_match_split (getProp item "id") rs with
      ⟨pre, old, post, he, hpre, hold⟩ | hnone
    · subst he
      refine ⟨pre ++ assign (spread old) (spread item) :: post, spread item,
        saveItems_merge item pre post old hid hpre hold, ?_, ?_⟩
      · have hidm : getProp (assign (spread old) (spread item)) "id" = getProp item "id" := by
          rw [getProp_assign, hasProp_spread, hasProp_of_truthy item "id" hid, if_pos rfl,
            getProp_spread]
        have hnum : idNumber (assign (spread old) (spread item)) = idNumber old := by
          unfold idNumber
          rw [hidm]
          exact (numStrictEq_eq _ _ hold).symm
        apply distinctIds_congr _ _ _ hdist
        simp only [List.map_append, List.map_cons, hnum]
      · intro r hr
        rcases List.mem_append.mp hr with h | h
        · exact hclean r (List.mem_append_left _ h)
        · rcases List.mem_cons.mp h with h | h
          · rw [h, getProp_assign, hasProp_spread, hasProp_of_truthy item "id" hid,
              if_pos rfl, getProp_spread]
            exact jsonProp_of_truthy _ hid
          · exact hclean r (List.mem_append_right _ (List.mem_cons_of_mem _ h))
    · refine ⟨rs ++ [spread item], spread item, saveItems_append item rs hid hnone, ?_, ?_⟩
      · unfold distinctIds
        rw [List.pairwise_append]
        refine ⟨hdist, List.pairwise_singleton _ _, ?_⟩
        intro a ha b hb
        rw [List.mem_singleton] at hb
        rw [hb]
        have := hnone a ha
        unfold recordIdMatches at this
        unfold idNumber
        rw [getProp_spread]
        exact this
      · intro r hr
        rcases List.mem_append.mp hr with h | h
        · exact hclean r h
        · rw [List.mem_singleton] at h
          rw [h, getProp_spread]
          exact jsonProp_of_truthy _ hid
  · have hfalsy : (getProp item "id").truthy = false := by simpa using hid
    obtain ⟨ids, hids, hb⟩ := exists_safe_ids rs hsafe
    obtain ⟨n, hn, h1, h2⟩ := getNextId_records rs ids hids hb
    refine ⟨rs ++ [setProp (spread item) "id" (.num n)], setProp (spread item) "id" (.num n),
      saveItems_create_falsy item rs n hfalsy hn, ?_, ?_⟩
    · unfold distinctIds
      rw [List.pairwise_append]
      refine ⟨hdist, List.pairwise_singleton _ _, ?_⟩
      intro a ha b hb
      rw [List.mem_singleton] at hb
      rw [hb]
      have hnew : idNumber (setProp (spread item) "id" (.num n)) = .fin n := by
        unfold idNumber
        rw [getProp_setProp]
        rfl
      have hmem : idNumber a ∈ ids.map JSNum.fin := by
        rw [← hids]
        exact List.mem_map.mpr ⟨a, ha, rfl⟩
      obtain ⟨m, hm, hma⟩ := List.mem_map.mp hmem
      have hne : ids ≠ [] := fun h => by rw [h] at hm; cases hm
      have hle := (h2 hne).2 m hm
      rw [hnew, ← hma]
      simp only [numStrictEq, decide_eq_false_iff_not]
      omega
    · intro r hr
      rcases List.mem_append.mp hr with h | h
      · exact hclean r h
      · rw [List.mem_singleton] at h
        rw [h, getProp_setProp]
        rfl

theorem getAll_entry (env : Env) (entity : String) (rs : List Record)
    (hcol : (DataService.getAll env entity).value = .arr (rs.map Item.obj)) (v : JSVal)
    (hv : (DataService.getAll env entity).env.localStorage.getItem entity = some (.json v)) :
    v = .arr (rs.map Item.obj) ∨ v = .arr ((rs.map jsonRecord).map Item.obj) := by
  cases h : readLocal (env.localStorage.getItem entity) with
  | some w =>
    rw [getAll_of_hit env entity w h] at hcol hv
    simp only at hcol hv
    rw [hv, readLocal_json] at h
    left
    rw [← hcol]
    exact Option.some.inj h
  | none =>
    have hmiss : env.localStorage.getItem entity ≠ some (.json v) := by
      intro hc
      rw [hc, readLocal_json] at h
      cases h
    cases hmd : env.mockData with
    | none =>
      rw [getAll_of_nothing env entity h (fun md h2 => by rw [hmd] at h2; cases h2)] at hv
      exact absurd hv hmiss
    | some md =>
      by_cases ht : (md entity).truthy = true
      · rw [getAll_of_fixture env entity md h hmd ht] at hcol hv
        simp only at hcol hv
        by_cases ha : env.localStorage.accepts entity (JSON.stringify (md entity)) = true
        · rw [getItem_trySetItem _ _ _ ha, hcol, stringify_records] at hv
          right
          injection hv with hv2
          injection hv2 with hv3
          exact hv3.symm
        · have ha2 : env.localStorage.accepts entity (JSON.stringify (md entity)) = false := by
            simpa using ha
          rw [trySetItem_of_rejected _ _ _ ha2] at hv
          exact absurd hv hmiss
      · have ht2 : (md entity).truthy = false := by simpa using ht
        rw [getAll_of_nothing env entity h
          (fun md2 h2 => by rw [hmd] at h2; cases h2; exact ht2)] at hv
        exact absurd hv hmiss

theorem getAll_entry_distinct (env : Env) (entity : String) (rs : List Record)
    (hcol : (DataService.getAll env entity).value = .arr (rs.map Item.obj))
    (hpos : positiveIds rs) (hdist : distinctIds rs) (v : JSVal)
    (hv : (DataService.getAll env entity).env.localStorage.getItem entity = some (.json v)) :
    ∃ rs2, v = .arr (rs2.map Item.obj) ∧ distinctIds rs2 := by
  rcases getAll_entry env entity rs hcol v hv with h | h
  · exact ⟨rs, h, hdist⟩
  · exact ⟨rs.map jsonRecord, h,
      distinctIds_congr _ _ (map_idNumber_jsonRecord rs (clean_of_positiveIds rs hpos)) hdist⟩

theorem delete_storage (env : Env) (entity : String) (id : Val) (rs : List Record)
    (hcol : (DataService.getAll env entity).value = .arr (rs.map Item.obj)) :
    (DataService.delete env entity id).2 = (DataService.getAll env entity).env ∨
    (DataService.delete env entity id).2.localStorage.getItem entity
      = some (JSON.stringify
          (.arr ((rs.filter (fun r => !recordIdMatches id r)).map Item.obj))) := by
  by_cases ha : (DataService.getAll env entity).env.localStorage.accepts entity
      (JSON.stringify (.arr ((rs.filter (fun r => !recordIdMatches id r)).map Item.obj)))
        = true
  · by_cases hl : (rs.filter (fun r => !recordIdMatches id r)).length = rs.length
    · left
      unfold DataService.delete
      simp only [hcol, JSVal.asArray, filterItems_records, List.length_map, ne_eq, hl,
        not_true_eq_false, if_false]
    · right
      unfold DataService.delete
      simp only [hcol, JSVal.asArray, filterItems_records, List.length_map, ne_eq,
        Ne.symm hl, not_false_eq_true, if_true, LocalStorage.setItem, ha]
      simp [LocalStorage.getItem]
  · left
    have ha2 : (DataService.getAll env entity).env.localStorage.accepts entity
        (JSON.stringify (.arr ((rs.filter (fun r => !recordIdMatches id r)).map Item.obj)))
          = false := by simpa using ha
    unfold DataService.delete
    simp only [hcol, JSVal.asArray, filterItems_records, LocalStorage.setItem, ha2]
    split <;> rfl

/-- Claim C16 fails in the code. First, the collection `idAtLimit` has one id, the positive
integer 2^53, so its ids are positive integers and pairwise distinct; `getNextId` answers
2^53 on it, the id in use, and `save` of a record without id persists two records with
the id 9007199254740992. Second, ids need not remain numbers: starting from the one id 1,
`save` of a record whose id is the string "abc" and then of two records without id
persists four records of which the last two both have the id `null`, since
`getNextId` answers `NaN` as soon as a stored id is not a number. -/
theorem save_repeats_id :
    (positiveIds idAtLimit ∧ distinctIds idAtLimit) ∧
    DataService.getNextId (.arr (idAtLimit.map Item.obj)) = .ok (.num 9007199254740992) ∧
    (DataService.save (envWith idAtLimit true) "clientes"
        [("nombre", .str "X")]).2.localStorage.getItem "clientes"
      = some (.json (.arr (List.map Item.obj
          [[("id", .num 9007199254740992), ("nombre", .str "A")],
           [("nombre", .str "X"), ("id", .num 9007199254740992)]]))) ∧
    ¬ distinctIds [[("id", .num 9007199254740992), ("nombre", .str "A")],
        [("nombre", .str "X"), ("id", .num 9007199254740992)]] ∧
    (positiveIds idOne ∧ distinctIds idOne) ∧
    envThreeSaves.localStorage.getItem "clientes"
      = some (.json (.arr (List.map Item.obj
          [[("id", .num 1), ("nombre", .str "A")], [("id", .str "abc")],
           [("nombre", .str "Y"), ("id", .null)], [("nombre", .str "Z"), ("id", .null)]]))) ∧
    ¬ distinctIds [[("id", .num 1), ("nombre", .str "A")], [("id", .str "abc")],
        [("nombre", .str "Y"), ("id", .null)], [("nombre", .str "Z"), ("id", .null)]] := by
  have hpos1 : positiveIds idAtLimit := by
    intro r hr
    simp only [idAtLimit, List.mem_singleton] at hr
    exact ⟨9007199254740992, by decide, by rw [hr]; decide⟩
  have hpos2 : positiveIds idOne := by
    intro r hr
    simp only [idOne, List.mem_singleton] at hr
    exact ⟨1, by decide, by rw [hr]; decide⟩
  refine ⟨⟨hpos1, by unfold distinctIds; decide⟩, by decide, by decide,
    by unfold distinctIds; decide, ⟨hpos2, by unfold distinctIds; decide⟩, by decide,
    by unfold distinctIds; decide⟩

/-- Below the limit of safe integers one call keeps ids distinct. Let the collection
`getAll` returns be the records `rs`, with ids that are positive safe integers (at most
2^53 - 1) and pairwise numerically distinct. Then after `save` of any record (with an id,
without one, with a falsy one) and after `delete` of any id, whatever text that parses is
held under the entity's key is a collection of records with pairwise numerically distinct
ids; this covers the collection the call persisted and, when its write was rejected, the
one that was there before. The ids of the result need not be positive safe integers
again. -/
theorem ids_stay_distinct_below_limit (env : Env) (entity : String) (rs : List Record)
    (hcol : (DataService.getAll env entity).value = .arr (rs.map Item.obj))
    (hpos : positiveIds rs) (hsafe : safeIds rs) (hdist : distinctIds rs) :
    (∀ item v,
      (DataService.save env entity item).2.localStorage.getItem entity = some (.json v) →
        ∃ rs2, v = .arr (rs2.map Item.obj) ∧ distinctIds rs2)
    ∧ (∀ id v,
      (DataService.delete env entity id).2.localStorage.getItem entity = some (.json v) →
        ∃ rs2, v = .arr (rs2.map Item.obj) ∧ distinctIds rs2) := by
  constructor
  · intro item v hv
    obtain ⟨rs2, newItem, hs, hd, hc⟩ := saveItems_keeps_distinct rs hpos hsafe hdist item
    rw [← hcol] at hs
    unfold DataService.save at hv
    simp only [hs] at hv
    by_cases ha : (DataService.getAll env entity).env.localStorage.accepts entity
        (JSON.stringify (.arr (rs2.map Item.obj))) = true
    · rw [getItem_trySetItem _ _ _ ha, stringify_records] at hv
      injection hv with hv2
      injection hv2 with hv3
      exact ⟨rs2.map jsonRecord, hv3.symm,
        distinctIds_congr _ _ (map_idNumber_jsonRecord rs2 hc) hd⟩
    · have ha2 : (DataService.getAll env entity).env.localStorage.accepts entity
          (JSON.stringify (.arr (rs2.map Item.obj))) = false := by simpa using ha
      rw [trySetItem_of_rejected _ _ _ ha2] at hv
      exact getAll_entry_distinct env entity rs hcol hpos hdist v hv
  · intro id v hv
    have hsub : distinctIds (rs.filter (fun r => !recordIdMatches id r)) :=
      List.Pairwise.sublist (List.filter_sublist rs) hdist
    have hclean : ∀ r ∈ rs.filter (fun r => !recordIdMatches id r),
        jsonProp (getProp r "id") = some (getProp r "id") :=
      fun r hr => clean_of_positiveIds rs hpos r (List.mem_of_mem_filter hr)
    rcases delete_storage env entity id rs hcol with h | h
    · rw [h] at hv
      exact getAll_entry_distinct env entity rs hcol hpos hdist v hv
    · rw [h, stringify_records] at hv
      injection hv with hv2
      injection hv2 with hv3
      exact ⟨(rs.filter (fun r => !recordIdMatches id r)).map jsonRecord, hv3.symm,
        distinctIds_congr _ _ (map_idNumber_jsonRecord _ hclean) hsub⟩

/-- On the stored ids 1, 2, 3: after saving a record without id the key holds four records
with distinct ids, and after deleting id 2 it holds records with distinct ids. -/
theorem ids_stay_distinct_below_limit_example :
    (∃ rs2, (DataService.save (envWith idsOneTwoThree true) "clientes"
        [("nombre", .str "E")]).2.localStorage.getItem "clientes"
          = some (.json (.arr (rs2.map Item.obj))) ∧ rs2.length = 4 ∧ distinctIds rs2) ∧
    (∃ rs2, (DataService.delete (envWith idsOneTwoThree true) "clientes"
        (.num 2)).2.localStorage.getItem "clientes"
          = some (.json (.arr (rs2.map Item.obj))) ∧ distinctIds rs2) := by
  have hpos : positiveIds idsOneTwoThree := by
    intro r hr
    simp only [idsOneTwoThree, List.mem_cons, List.mem_singleton, List.not_mem_nil,
      or_false] at hr
    rcases hr with h | h | h
    · exact ⟨1, by decide, by rw [h]; decide⟩
    · exact ⟨2, by decide, by rw [h]; decide⟩
    · exact ⟨3, by decide, by rw [h]; decide⟩
  have hsafe : safeIds idsOneTwoThree := by
    intro r hr
    simp only [idsOneTwoThree, List.mem_cons, List.mem_singleton, List.not_mem_nil,
      or_false] at hr
    rcases hr with h | h | h
    · exact ⟨1, by decide, by decide, by rw [h]; decide⟩
    · exact ⟨2, by decide, by decide, by rw [h]; decide⟩
    · exact ⟨3, by decide, by decide, by rw [h]; decide⟩
  have hdist : distinctIds idsOneTwoThree := by unfold distinctIds; decide
  have h := ids_stay_distinct_below_limit (envWith idsOneTwoThree true) "clientes"
    idsOneTwoThree (by decide) hpos hsafe hdist
  constructor
  · obtain ⟨rs2, h1, h2⟩ := h.1 [("nombre", .str "E")]
      (.arr ((idsOneTwoThree ++ [[("nombre", Val.str "E"), ("id", Val.num 4)]]).map Item.obj))
      (by decide)
    have hl : (rs2.map Item.obj).length = 4 := by
      have := congrArg (fun v => match v with
        | JSVal.arr xs => xs.length
        | _ => 0) h1
      simpa using this.symm
    refine ⟨rs2, ?_, by simpa using hl, h2⟩
    rw [← h1]
    decide
  · obtain ⟨rs2, h1, h2⟩ := h.2 (.num 2)
      (.arr [.obj [("id", .num 1), ("nombre", .str "A")],
        .obj [("id", .num 3), ("nombre", .str "C")]]) (by decide)
    refine ⟨rs2, ?_, h2⟩
    rw [← h1]
    decide

/-! ## The fixture under `save` -/

/-- Claim C17 at the failing input: on a first visit (nothing stored, the fixture loaded)
`save("clientes", {nombre: "X"})` leaves `mockData.clientes` with seven records, the six
of the fixture followed by the new one; `getAll` alone leaves it as it was. -/
theorem save_mutates_fixture :
    (envFresh true).localStorage.getItem "clientes" = none ∧
    (envFresh true).mockData.map (fun md => md "clientes") = some (.arr mockClientes) ∧
    (DataService.getAll (envFresh true) "clientes").env.mockData.map
        (fun md => md "clientes") = some (.arr mockClientes) ∧
    (DataService.save (envFresh true) "clientes" [("nombre", .str "X")]).2.mockData.map
        (fun md => md "clientes")
      = some (.arr (mockClientes ++ [.obj [("nombre", .str "X"), ("id", .num 7)]])) := by
  decide

/-! ## The read path of the dashboard -/

/-- Claim C18 at the failing input: with one client stored under "clientes" and the
fixture loaded, `getEntityData` of the dashboard returns the six clients of the fixture,
while `DataService.getAll` returns the stored one. -/
theorem dashboard_reads_fixture_first :
    (envWith oneClient true).localStorage.getItem "clientes"
      = some (.json (.arr (oneClient.map Item.obj))) ∧
    dashboard.getEntityData (envWith oneClient true) "clientes" = .arr mockClientes ∧
    (DataService.getAll (envWith oneClient true) "clientes").value
      = .arr (oneClient.map Item.obj) := by
  decide

/-! ## URL normalisation -/

/-- Claim C20 at the failing input: for the URL "//assets/x.html", which starts with two
slashes, `normalizeUrl` and the three inline normalisations return "/assets/x.html",
which still starts with a slash. -/
theorem normalizeUrl_keeps_second_slash :
    fetchWrapper.normalizeUrl "//assets/x.html" = "/assets/x.html" ∧
    domUtils.normalizedUrl "//assets/x.html" = "/assets/x.html" ∧
    Utils.normalizedUrl "//assets/x.html" = "/assets/x.html" ∧
    loadComponent.normalizedUrl "//assets/x.html" = "/assets/x.html" ∧
    startsWith "/assets/x.html" "/" = true := by
  decide

/-! ## Storage utilities -/

theorem removeItem_of_absent (ls : LocalStorage) (key : String) (h : ls.getItem key = none) :
    ls.removeItem key = ls := by
  cases ls with
  | mk items accepts =>
    simp only [LocalStorage.removeItem, LocalStorage.mk.injEq, and_true]
    funext k
    by_cases hk : k = key
    · subst hk
      simpa [LocalStorage.getItem] using h.symm
    · simp [hk]

theorem isAvailable_of_rejected (ls : LocalStorage)
    (h : ls.accepts "test" .malformed = false) :
    localStorageUtils.isAvailable ls = (false, ls) := by
  simp [localStorageUtils.isAvailable, LocalStorage.setItem, h]

theorem isAvailable_of_accepted (ls : LocalStorage)
    (h : ls.accepts "test" .malformed = true) :
    localStorageUtils.isAvailable ls = (true, ls.removeItem "test") := by
  cases ls with
  | mk items accepts =>
    simp only [localStorageUtils.isAvailable, LocalStorage.setItem] at h ⊢
    simp only [h, if_true, LocalStorage.removeItem, Prod.mk.injEq, LocalStorage.mk.injEq,
      and_true, true_and]
    funext k
    by_cases hk : k = "test" <;> simp [hk]

theorem isAvailable_fst (ls : LocalStorage) :
    (localStorageUtils.isAvailable ls).1 = ls.accepts "test" .malformed := by
  by_cases h : ls.accepts "test" .malformed = true
  · rw [isAvailable_of_accepted ls h, h]
  · have h2 : ls.accepts "test" .malformed = false := by simpa using h
    rw [isAvailable_of_rejected ls h2, h2]

theorem initLoop_fst (ls : LocalStorage) (entitiesData : List (String × JSVal)) (b : Bool) :
    (localStorageUtils.initLoop ls entitiesData b).1
      = (b && (initEntityResults ls entitiesData).all (fun x => x)) := by
  induction entitiesData generalizing ls b with
  | nil => simp [localStorageUtils.initLoop, initEntityResults]
  | cons kv rest ih =>
    obtain ⟨entity, defaultData⟩ := kv
    simp only [localStorageUtils.initLoop, initEntityResults, ih, List.all_cons, Bool.and_assoc]

/-- Claim C21 does not hold as stated. With the key present and a storage that rejects
writes, `initEntity` returns false. With the key absent and a storage that accepts the
probe of `isAvailable` but rejects the write of the default data, it returns false and
the key stays absent. With the key "clientes" present and an entry under "test", it
returns true but the entry under "test" is gone afterwards. And for the entity "test"
itself, present with the value 7, the entry is overwritten with the default data. -/
theorem initEntity_counterexample :
    ((storageWith "clientes" (.arr []) false).getItem "clientes" = some (.json (.arr [])) ∧
      (localStorageUtils.initEntity (storageWith "clientes" (.arr []) false) "clientes"
        (.arr [])).1 = false)
    ∧ (probeOnlyStorage.getItem "clientes" = none ∧
      (localStorageUtils.isAvailable probeOnlyStorage).1 = true ∧
      (localStorageUtils.initEntity probeOnlyStorage "clientes" (.arr [])).1 = false ∧
      (localStorageUtils.initEntity probeOnlyStorage "clientes" (.arr [])).2.getItem
        "clientes" = none)
    ∧ (storageWithTest.getItem "test" = some (.json (.prim (.num 7))) ∧
      (localStorageUtils.initEntity storageWithTest "clientes" (.arr [])).1 = true ∧
      (localStorageUtils.initEntity storageWithTest "clientes" (.arr [])).2.getItem "test"
        = none)
    ∧ (localStorageUtils.initEntity storageWithTest "test" (.arr [])).2.getItem "test"
        = some (.json (.arr [])) := by
  decide

/-- Claim C21, amended. Storage is available when the probe write of `isAvailable` is
accepted. For every storage state, entity name and default data: when storage is not
available, `initEntity` returns false and leaves storage as it is; when storage is
available, the entity is not the probe key "test" and no entry is held under "test",
then if the key already exists storage is left unchanged and the result is true, and if
it does not exist and storage accepts the write, the key is set to the serialized default
data (the empty array for `undefined`), every other key is left as it is and the result
is true. And `initEntities` returns true exactly when storage is available and every
one of its `initEntity` calls returned true. -/
theorem initEntity_contract (ls : LocalStorage) (entity : String) (defaultData : JSVal)
    (entitiesData : List (String × JSVal)) :
    (ls.accepts "test" .malformed = false →
      localStorageUtils.initEntity ls entity defaultData = (false, ls))
    ∧ (ls.accepts "test" .malformed = true → entity ≠ "test" → ls.getItem "test" = none →
        ls.getItem entity ≠ none →
        localStorageUtils.initEntity ls entity defaultData = (true, ls))
    ∧ (ls.accepts "test" .malformed = true → entity ≠ "test" → ls.getItem "test" = none →
        ls.getItem entity = none →
        ls.accepts entity (JSON.stringify (defaultDataOr defaultData)) = true →
        (localStorageUtils.initEntity ls entity defaultData).1 = true ∧
        (localStorageUtils.initEntity ls entity defaultData).2.getItem entity
          = some (JSON.stringify (defaultDataOr defaultData)) ∧
        ∀ k, k ≠ entity →
          (localStorageUtils.initEntity ls entity defaultData).2.getItem k = ls.getItem k)
    ∧ ((localStorageUtils.initEntities ls entitiesData).1 = true ↔
        (localStorageUtils.isAvailable ls).1 = true ∧
        ∀ b ∈ initEntityResults (localStorageUtils.isAvailable ls).2 entitiesData,
          b = true) := by
  refine ⟨?_, ?_, ?_, ?_⟩
  · intro hrej
    simp [localStorageUtils.initEntity, localStorageUtils.exists, localStorageUtils.set,
      isAvailable_of_rejected ls hrej]
  · intro hacc _ htest hex
    have hrm := removeItem_of_absent ls "test" htest
    have hsome : (ls.getItem entity).isSome = true := by
      cases h : ls.getItem entity with
      | none => exact absurd h hex
      | some t => rfl
    simp [localStorageUtils.initEntity, localStorageUtils.exists,
      isAvailable_of_accepted ls hacc, hrm, hsome]
  · intro hacc _ htest hno hw
    have hrm := removeItem_of_absent ls "test" htest
    have hinit : localStorageUtils.initEntity ls entity defaultData
        = (true, ls.trySetItem entity (JSON.stringify (defaultDataOr defaultData))) := by
      simp [localStorageUtils.initEntity, localStorageUtils.exists, localStorageUtils.set,
        isAvailable_of_accepted ls hacc, hrm, hno, LocalStorage.trySetItem,
        LocalStorage.setItem, hw]
    rw [hinit]
    exact ⟨rfl, getItem_trySetItem _ _ _ hw,
      fun k hk => getItem_trySetItem_other _ _ _ _ hk⟩
  · unfold localStorageUtils.initEntities
    by_cases ha : (localStorageUtils.isAvailable ls).1 = true
    · simp only [ha, Bool.not_true, Bool.false_eq_true, if_false, initLoop_fst,
        Bool.true_and, List.all_eq_true, true_and]
    · simp [ha]

/-- Claim C21, amended, at an empty storage that accepts writes: `initEntity` stores the
default under "clientes" and returns true, a second call on the result leaves it
unchanged, and `initEntities` for two entities returns true. -/
theorem initEntity_contract_witness :
    (localStorageUtils.initEntity (emptyStorage true) "clientes" (.arr [])).1 = true ∧
    (localStorageUtils.initEntity (emptyStorage true) "clientes" (.arr [])).2.getItem
      "clientes" = some (.json (.arr [])) ∧
    localStorageUtils.initEntity (storageWith "clientes" (.arr []) true) "clientes"
      (.arr (mockClientes)) = (true, storageWith "clientes" (.arr []) true) ∧
    (localStorageUtils.initEntity (emptyStorage false) "clientes" (.arr []))
      = (false, emptyStorage false) ∧
    (localStorageUtils.initEntities (emptyStorage true)
      [("clientes", .arr mockClientes), ("proyectos", .arr mockProyectos)]).1 = true := by
  have h := initEntity_contract (emptyStorage true) "clientes" (.arr [])
    [("clientes", .arr mockClientes), ("proyectos", .arr mockProyectos)]
  have h1 := h.2.2.1 rfl (by decide) rfl rfl rfl
  have h2 := (initEntity_contract (storageWith "clientes" (.arr []) true) "clientes"
    (.arr mockClientes) []).2.1 rfl (by decide) rfl (by decide)
  have h3 := (initEntity_contract (emptyStorage false) "clientes" (.arr []) []).1 rfl
  exact ⟨h1.1, h1.2.1, h2, h3, h.2.2.2.mpr ⟨by decide, by decide⟩⟩

/-! ## Save, then read -/

theorem getProp_jsonRecord_of_ne_nan (r : Record) (key : String)
    (h : getProp r key ≠ .nan) : getProp (jsonRecord r) key = getProp r key := by
  unfold getProp at h ⊢
  rw [findProp_jsonRecord]
  cases hf : findProp r key with
  | none => rfl
  | some v =>
    rw [hf] at h
    simp only [Option.getD_some] at h
    cases v <;> first | rfl | exact absurd rfl h

theorem recordIdMatches_jsonRecord (id : Val) (r : Record)
    (h : jsonProp (getProp r "id") = some (getProp r "id")) :
    recordIdMatches id (jsonRecord r) = recordIdMatches id r := by
  unfold recordIdMatches
  rw [getProp_jsonRecord r "id" h]

theorem findItem_first (id : Val) (pre post : List Record) (r : Record)
    (hpre : ∀ q ∈ pre, recordIdMatches id q = false) (hr : recordIdMatches id r = true) :
    findItem (idMatches id) ((pre ++ r :: post).map Item.obj) = .ok (some (.obj r)) := by
  induction pre with
  | nil => simp [findItem, idMatches_obj, hr]
  | cons q rest ih =>
    have h1 : recordIdMatches id q = false := hpre q (List.mem_cons_self _ _)
    have h2 := ih (fun x hx => hpre x (List.mem_cons_of_mem _ hx))
    simp only [List.cons_append, List.map_cons, findItem, idMatches_obj, h1]
    exact h2

theorem getById_of_stored (env : Env) (entity : String) (id : Val) (pre post : List Record)
    (x : Record)
    (hst : env.localStorage.getItem entity
      = some (JSON.stringify (.arr ((pre ++ x :: post).map Item.obj))))
    (hpreclean : ∀ q ∈ pre, jsonProp (getProp q "id") = some (getProp q "id"))
    (hxclean : jsonProp (getProp x "id") = some (getProp x "id"))
    (hpre : ∀ q ∈ pre, recordIdMatches id q = false) (hx : recordIdMatches id x = true) :
    (DataService.getById env entity id).1 = .ok (.obj (jsonRecord x)) := by
  have hr : readLocal (env.localStorage.getItem entity)
      = some (.arr (((pre.map jsonRecord) ++ jsonRecord x :: post.map jsonRecord).map
          Item.obj)) := by
    rw [hst, stringify_records, readLocal_json]
    simp
  have hf := findItem_first id (pre.map jsonRecord) (post.map jsonRecord) (jsonRecord x)
    (by
      intro q hq
      obtain ⟨q0, hq0, rfl⟩ := List.mem_map.mp hq
      rw [recordIdMatches_jsonRecord id q0 (hpreclean q0 hq0)]
      exact hpre q0 hq0)
    (by rw [recordIdMatches_jsonRecord id x hxclean]; exact hx)
  unfold DataService.getById
  simp only [getAll_of_hit env entity _ hr, JSVal.asArray, hf, Item.truthy, if_true]

theorem save_roundtrip (env : Env) (entity : String) (r x s : Record)
    (pre post : List Record)
    (hsave : saveItems (DataService.getAll env entity).value r
      = .ok ((pre ++ x :: post).map Item.obj, s))
    (hw : ∀ t, env.localStorage.accepts entity t = true)
    (hpreclean : ∀ q ∈ pre, jsonProp (getProp q "id") = some (getProp q "id"))
    (hxclean : jsonProp (getProp x "id") = some (getProp x "id"))
    (hpre : ∀ q ∈ pre, recordIdMatches (getProp s "id") q = false)
    (hx : recordIdMatches (getProp s "id") x = true)
    (hfields : ∀ key, hasProp r key = true → getProp x key = getProp r key) :
    ∃ s found, (DataService.save env entity r).1 = .ok s ∧
      (DataService.getById (DataService.save env entity r).2 entity (getProp s "id")).1
        = .ok (.obj found) ∧
      numStrictEq (idNumber found) (Number (getProp s "id")) = true ∧
      ∀ key, hasProp r key = true → getProp r key ≠ .nan →
        getProp found key = getProp r key := by
  have hst := save_storage env entity r _ _ hsave hw
  refine ⟨s, jsonRecord x, hst.1,
    getById_of_stored _ entity (getProp s "id") pre post x hst.2 hpreclean hxclean hpre hx,
    ?_, ?_⟩
  · have := recordIdMatches_jsonRecord (getProp s "id") x hxclean
    unfold recordIdMatches at this hx
    unfold idNumber
    rw [this]
    exact hx
  · intro key hk hnan
    have hxe := hfields key hk
    rw [getProp_jsonRecord_of_ne_nan x key (by rw [hxe]; exact hnan), hxe]

/-- Claim C22 does not hold as stated. First, a field whose value is `NaN` does not come
back: on the stored ids 1, 2, 3 with writes accepted, saving the record with nombre "X"
and valor `NaN` (no id) returns it with id 4, and `getById` of 4 then returns a record
whose valor is `null`. Second, on the stored collection whose one id is 2^53, saving the
record with nombre "X" (no id) returns it with the id 9007199254740992 again, and
`getById` of that id returns the record stored before, whose nombre is "A". -/
theorem save_roundtrip_counterexample :
    (hasProp [("nombre", .str "X"), ("valor", .nan)] "id" = false ∧
    (DataService.save (envWith idsOneTwoThree true) "clientes"
        [("nombre", .str "X"), ("valor", .nan)]).1
      = .ok [("nombre", .str "X"), ("valor", .nan), ("id", .num 4)] ∧
    (DataService.getById
        (DataService.save (envWith idsOneTwoThree true) "clientes"
          [("nombre", .str "X"), ("valor", .nan)]).2 "clientes" (.num 4)).1
      = .ok (.obj [("nombre", .str "X"), ("valor", .null), ("id", .num 4)])) ∧
    (hasProp [("nombre", .str "X")] "id" = false ∧
    (DataService.save (envWith idAtLimit true) "clientes" [("nombre", .str "X")]).1
      = .ok [("nombre", .str "X"), ("id", .num 9007199254740992)] ∧
    (DataService.getById
        (DataService.save (envWith idAtLimit true) "clientes"
          [("nombre", .str "X")]).2 "clientes" (.num 9007199254740992)).1
      = .ok (.obj [("id", .num 9007199254740992), ("nombre", .str "A")])) := by
  decide

/-- Claim C22, amended. Let the collection `getAll` returns be the records `rs`, with
positive safe integers (at most 2^53 - 1) as ids, let the record `r` have no id or a
positive integer as id, and let storage accept writes under the entity's key. Then `save`
returns a record `s`,
and `getById` of `s.id` afterwards returns a record whose id numerically equals `s.id`
and in which every field of `r` whose value is not `NaN` has the value it has in `r`. -/
theorem save_then_getById (env : Env) (entity : String) (r : Record) (rs : List Record)
    (hcol : (DataService.getAll env entity).value = .arr (rs.map Item.obj))
    (hpos : positiveIds rs) (hsafe : safeIds rs)
    (hid : hasProp r "id" = false ∨ ∃ n : Int, 0 < n ∧ getProp r "id" = .num n)
    (hw : ∀ t, env.localStorage.accepts entity t = true) :
    ∃ s found, (DataService.save env entity r).1 = .ok s ∧
      (DataService.getById (DataService.save env entity r).2 entity (getProp s "id")).1
        = .ok (.obj found) ∧
      numStrictEq (idNumber found) (Number (getProp s "id")) = true ∧
      ∀ key, hasProp r key = true → getProp r key ≠ .nan →
        getProp found key = getProp r key := by
  have hclean := clean_of_positiveIds rs hpos
  rcases hid with hnoid | ⟨n, hn0, hn⟩
  · obtain ⟨ids, hids, hb⟩ := exists_safe_ids rs hsafe
    obtain ⟨m, hm, h1, h2⟩ := getNextId_records rs ids hids hb
    have hs := saveItems_create r rs m hnoid hm
    rw [← hcol] at hs
    have hsid : getProp (setProp (spread r) "id" (.num m)) "id" = .num m := by
      rw [getProp_setProp]; rfl
    have hs2 : saveItems (DataService.getAll env entity).value r
        = .ok ((rs ++ setProp (spread r) "id" (.num m) :: []).map Item.obj,
            setProp (spread r) "id" (.num m)) := hs
    apply save_roundtrip env entity r _ _ rs [] hs2 hw hclean
    · rw [hsid]; rfl
    · intro q hq
      rw [hsid]
      have hmem : Number (getProp q "id") ∈ ids.map JSNum.fin := by
        rw [← hids]
        exact List.mem_map.mpr ⟨q, hq, rfl⟩
      obtain ⟨k, hk, hka⟩ := List.mem_map.mp hmem
      have hne : ids ≠ [] := fun h => by rw [h] at hk; cases hk
      have hle := (h2 hne).2 k hk
      unfold recordIdMatches
      rw [← hka]
      simp only [Number, numStrictEq, decide_eq_false_iff_not]
      omega
    · rw [hsid]
      unfold recordIdMatches
      rw [hsid]
      simp [Number, numStrictEq]
    · intro key hk
      have hne : ¬ "id" = key := by
        intro he
        rw [← he, hnoid] at hk
        cases hk
      rw [getProp_setProp, if_neg hne, getProp_spread]
  · have htruthy : (getProp r "id").truthy = true := by
      rw [hn]
      simp only [Val.truthy, decide_eq_true_eq]
      omega
    have hsid : getProp (spread r) "id" = getProp r "id" := getProp_spread r "id"
    rcases first_match_split (getProp r "id") rs with
      ⟨pre, old, post, he, hpre, _⟩ | hnone
    · subst he
      have hs := saveItems_merge r pre post old htruthy hpre (by assumption)
      rw [← hcol] at hs
      have hidm : getProp (assign (spread old) (spread r)) "id" = getProp r "id" := by
        rw [getProp_assign, hasProp_spread, hasProp_of_truthy r "id" htruthy, if_pos rfl,
          getProp_spread]
      apply save_roundtrip env entity r _ _ pre post hs hw
        (fun q hq => hclean q (List.mem_append_left _ hq))
      · rw [hidm]; exact jsonProp_of_truthy _ htruthy
      · rw [hsid]; exact hpre
      · rw [hsid]
        unfold recordIdMatches
        rw [hidm, hn]
        simp [Number, numStrictEq]
      · intro key hk
        rw [getProp_assign, hasProp_spread, hk, if_pos rfl, getProp_spread]
    · have hs := saveItems_append r rs htruthy hnone
      rw [← hcol] at hs
      have hs2 : saveItems (DataService.getAll env entity).value r
          = .ok ((rs ++ spread r :: []).map Item.obj, spread r) := hs
      apply save_roundtrip env entity r _ _ rs [] hs2 hw hclean
      · rw [hsid]; exact jsonProp_of_truthy _ htruthy
      · rw [hsid]; exact hnone
      · rw [hsid]
        unfold recordIdMatches
        rw [hsid, hn]
        simp [Number, numStrictEq]
      · intro key _
        exact getProp_spread r key

/-- Claim C22, amended, on the stored ids 1, 2, 3: saving a record without id and reading
it back by the id 4 it was given returns its two fields. -/
theorem save_then_getById_witness :
    ∃ s found,
      (DataService.save (envWith idsOneTwoThree true) "clientes"
        [("nombre", .str "X"), ("estado", .str "Activo")]).1 = .ok s ∧
      (DataService.getById
        (DataService.save (envWith idsOneTwoThree true) "clientes"
          [("nombre", .str "X"), ("estado", .str "Activo")]).2 "clientes"
        (getProp s "id")).1 = .ok (.obj found) ∧
      getProp found "nombre" = .str "X" ∧ getProp found "estado" = .str "Activo" := by
  have hpos : positiveIds idsOneTwoThree := by
    intro r hr
    simp only [idsOneTwoThree, List.mem_cons, List.mem_singleton, List.not_mem_nil,
      or_false] at hr
    rcases hr with h | h | h
    · exact ⟨1, by decide, by rw [h]; decide⟩
    · exact ⟨2, by decide, by rw [h]; decide⟩
    · exact ⟨3, by decide, by rw [h]; decide⟩
  have hsafe : safeIds idsOneTwoThree := by
    intro r hr
    simp only [idsOneTwoThree, List.mem_cons, List.mem_singleton, List.not_mem_nil,
      or_false] at hr
    rcases hr with h | h | h
    · exact ⟨1, by decide, by decide, by rw [h]; decide⟩
    · exact ⟨2, by decide, by decide, by rw [h]; decide⟩
    · exact ⟨3, by decide, by decide, by rw [h]; decide⟩
  obtain ⟨s, found, h1, h2, -, h4⟩ :=
    save_then_getById (envWith idsOneTwoThree true) "clientes"
      [("nombre", .str "X"), ("estado", .str "Activo")] idsOneTwoThree (by decide) hpos
      hsafe (Or.inl (by decide)) (fun _ => rfl)
  exact ⟨s, found, h1, h2, h4 "nombre" (by decide) (by decide),
    h4 "estado" (by decide) (by decide)⟩

/-! ## Deleting every record -/

theorem setItem_accepts (ls ls1 : LocalStorage) (key : String) (text : StoredText)
    (h : ls.setItem key text = .ok ls1) : ls1.accepts = ls.accepts := by
  unfold LocalStorage.setItem at h
  by_cases ha : ls.accepts key text = true
  · rw [if_pos ha] at h
    injection h with h1
    rw [← h1]
  · rw [if_neg ha] at h
    cases h

theorem delete_accepts (env : Env) (entity : String) (id : Val) :
    (DataService.delete env entity id).2.localStorage.accepts = env.localStorage.accepts := by
  rw [← getAll_accepts env entity]
  unfold DataService.delete
  dsimp only
  split
  · rfl
  · split
    · rfl
    · split
      · split
        · next ls1 heq => exact setItem_accepts _ ls1 _ _ heq
        · rfl
      · rfl

theorem delete_step (env : Env) (entity : String) (id : Val) (rs : List Record)
    (hcol : (DataService.getAll env entity).value = .arr (rs.map Item.obj))
    (hw : ∀ t, env.localStorage.accepts entity t = true)
    (hclean : ∀ r ∈ rs, jsonProp (getProp r "id") = some (getProp r "id")) :
    ∃ rs2 : List Record,
      (DataService.getAll (DataService.delete env entity id).2 entity).value
        = .arr (rs2.map Item.obj) ∧
      rs2.map idNumber = (rs.filter (fun r => !recordIdMatches id r)).map idNumber := by
  by_cases hl : (rs.filter (fun r => !recordIdMatches id r)).length = rs.length
  · have hkeep : rs.filter (fun r => !recordIdMatches id r) = rs :=
      List.filter_eq_self.mpr (List.filter_length_eq_length.mp hl)
    have hd : (DataService.delete env entity id).2 = (DataService.getAll env entity).env := by
      unfold DataService.delete
      simp only [hcol, JSVal.asArray, filterItems_records, hkeep, ne_eq, not_true_eq_false,
        if_false]
    rw [hd, hkeep]
    rcases getAll_again_cases env entity rs hcol with h | h
    · exact ⟨rs, h, rfl⟩
    · exact ⟨rs.map jsonRecord, h, map_idNumber_jsonRecord rs hclean⟩
  · have hacc : (DataService.getAll env entity).env.localStorage.accepts entity
        (JSON.stringify (.arr ((rs.filter (fun r => !recordIdMatches id r)).map Item.obj)))
          = true := by
      rw [getAll_accepts]; exact hw _
    have hst : (DataService.delete env entity id).2.localStorage.getItem entity
        = some (JSON.stringify
            (.arr ((rs.filter (fun r => !recordIdMatches id r)).map Item.obj))) := by
      unfold DataService.delete
      simp only [hcol, JSVal.asArray, filterItems_records, List.length_map, ne_eq,
        Ne.symm hl, not_false_eq_true, if_true, LocalStorage.setItem, hacc]
      simp [LocalStorage.getItem]
    refine ⟨(rs.filter (fun r => !recordIdMatches id r)).map jsonRecord, ?_,
      map_idNumber_jsonRecord _ (fun r hr => hclean r (List.mem_of_mem_filter hr))⟩
    have hr : readLocal ((DataService.delete env entity id).2.localStorage.getItem entity)
        = some (.arr (((rs.filter (fun r => !recordIdMatches id r)).map jsonRecord).map
            Item.obj)) := by
      rw [hst, stringify_records, readLocal_json]
    rw [getAll_of_hit _ entity _ hr]

theorem recordIdMatches_of_idNumber (id : Val) (a b : Record) (h : idNumber a = idNumber b) :
    recordIdMatches id a = recordIdMatches id b := by
  unfold recordIdMatches
  unfold idNumber at h
  rw [h]

theorem deleteEach_all (entity : String) (ids : List Val) :
    ∀ (env : Env) (rs : List Record),
      (DataService.getAll env entity).value = .arr (rs.map Item.obj) →
      (∀ t, env.localStorage.accepts entity t = true) →
      (∀ r ∈ rs, ∃ id ∈ ids, recordIdMatches id r = true) →
      (DataService.getAll (deleteEach env entity ids) entity).value = .arr [] := by
  induction ids with
  | nil =>
    intro env rs hcol _ hall
    cases rs with
    | nil => exact hcol
    | cons r rest =>
      obtain ⟨id, hid, -⟩ := hall r (List.mem_cons_self _ _)
      cases hid
  | cons id ids ih =>
    intro env rs hcol hw hall
    have hclean : ∀ r ∈ rs, jsonProp (getProp r "id") = some (getProp r "id") := by
      intro r hr
      obtain ⟨i, -, hm⟩ := hall r hr
      unfold recordIdMatches at hm
      cases hn : Number (getProp r "id") with
      | nan => rw [hn] at hm; simp [numStrictEq] at hm
      | fin n => exact jsonProp_of_number _ n hn
    obtain ⟨rs2, hcol2, hids⟩ := delete_step env entity id rs hcol hw hclean
    apply ih (DataService.delete env entity id).2 rs2 hcol2
    · intro t
      rw [delete_accepts]
      exact hw t
    · intro r2 hr2
      have hmem : idNumber r2 ∈ (rs.filter (fun r => !recordIdMatches id r)).map idNumber := by
        rw [← hids]
        exact List.mem_map.mpr ⟨r2, hr2, rfl⟩
      obtain ⟨r, hr, hre⟩ := List.mem_map.mp hmem
      have hrmem := List.mem_of_mem_filter hr
      have hnot : recordIdMatches id r = false := by
        have := List.of_mem_filter hr
        simpa using this
      obtain ⟨i, hi, hm⟩ := hall r hrmem
      rcases List.mem_cons.mp hi with h | h
      · rw [h, hnot] at hm
        cases hm
      · exact ⟨i, h, by rw [recordIdMatches_of_idNumber i r2 r hre.symm]; exact hm⟩

/-- Claim C23. Let the collection `getAll` returns be the records `rs` (the fixture on a
first visit, the persisted collection later), let storage accept writes under the
entity's key, and let `delete` be called for each id of a list in which every record of
`rs` finds an id numerically equal to its own. Then `getAll` afterwards returns the empty
array, whatever the fixture holds, and `getById` returns `null` for every id. -/
theorem delete_all_stays_empty (env : Env) (entity : String) (rs : List Record)
    (ids : List Val)
    (hcol : (DataService.getAll env entity).value = .arr (rs.map Item.obj))
    (hw : ∀ t, env.localStorage.accepts entity t = true)
    (hall : ∀ r ∈ rs, ∃ id ∈ ids, recordIdMatches id r = true) :
    (DataService.getAll (deleteEach env entity ids) entity).value = .arr [] ∧
    ∀ id, (DataService.getById (deleteEach env entity ids) entity id).1
      = .ok (.prim .null) := by
  have h := deleteEach_all entity ids env rs hcol hw hall
  refine ⟨h, ?_⟩
  intro id
  unfold DataService.getById
  simp only [h, JSVal.asArray, findItem]

/-- Claim C23 on a first visit: after deleting the ids 1 to 6 of the six clients of the
fixture, `getAll` returns the empty array although `mockData.clientes` is not empty, the
key holds the empty collection, and `getById` of 3 returns `null`. -/
theorem delete_all_stays_empty_witness :
    mockData "clientes" = .arr mockClientes ∧ mockClientes.length = 6 ∧
    (DataService.getAll (deleteEach (envFresh true) "clientes"
      [.num 1, .num 2, .num 3, .num 4, .num 5, .num 6]) "clientes").value = .arr [] ∧
    (deleteEach (envFresh true) "clientes"
      [.num 1, .num 2, .num 3, .num 4, .num 5, .num 6]).localStorage.getItem "clientes"
      = some (.json (.arr [])) ∧
    (DataService.getById (deleteEach (envFresh true) "clientes"
      [.num 1, .num 2, .num 3, .num 4, .num 5, .num 6]) "clientes" (.num 3)).1
      = .ok (.prim .null) := by
  have h := delete_all_stays_empty (envFresh true) "clientes" (recordsOf mockClientes)
    [.num 1, .num 2, .num 3, .num 4, .num 5, .num 6] (by decide) (fun _ => rfl)
    (by decide)
  exact ⟨by decide, by decide, h.1, by decide, h.2 _⟩

end Backoffice
